import Mathlib

/-!
# RelayRTC negotiation engine — verification of the per-peer WebRTC service

Shallow embedding of `src/frontend/src/services/webRTCService.ts` (class
`WebRTCService`). The mutable fields of the class become a `ServiceState`
record; each handler becomes a function `ServiceState → ... → ServiceState ×
List Action`, where the `Action` trace records the outward emissions and the
platform calls (session close/create, candidate application) the handler
performs, in order.

`RTCPeerConnection` objects are modelled as entries of a session heap
(`SessionId ↦ Session`), so that a "closed" session stays observable after the
registry entry is removed. The platform operations that can reject
(`setRemoteDescription`, `createOffer`, `createAnswer`,
`setLocalDescription`) are driven by a `PlatformOracle` saying, per call,
whether the call succeeds or throws which JavaScript error; the state change a
successful call performs follows the W3C signaling-state semantics the spec
describes. Timers carry no wall-clock time: the 5-second guard deadline is
modelled by the `processingTimeouts` entry being armed, and the transition
`offerTimeoutFire` / `answerTimeoutFire` is the timer callback firing.
-/

namespace RelayRTC

abbrev PeerId := String
abbrev SessionId := Nat

/-- `RTCSessionDescriptionInit`: type ("offer"/"answer") plus SDP payload. -/
structure SessionDescription where
  dtype : String
  sdp : String
deriving DecidableEq, Repr

/-- `RTCIceCandidateInit`. -/
structure IceCandidate where
  candidate : String
deriving DecidableEq, Repr

/-- `RTCPeerConnection.signalingState` (the values this service observes). -/
inductive SignalingState
  | stable
  | haveLocalOffer
  | haveRemoteOffer
  | closed
deriving DecidableEq, Repr

/-- `RTCPeerConnection.connectionState`. -/
inductive ConnectionState
  | new
  | connecting
  | connected
  | disconnected
  | failed
  | closed
deriving DecidableEq, Repr

/-- One `RTCPeerConnection`, as the service observes it. -/
structure Session where
  peer : PeerId
  signalingState : SignalingState
  localDescription : Option SessionDescription
  remoteDescription : Option SessionDescription
  connectionState : ConnectionState
deriving DecidableEq, Repr

/-- Which guard a `processingTimeouts` entry belongs to (the source stores
offer-deadline and answer-deadline timers in the one shared map). -/
inductive TimerKind
  | offerGuard
  | answerGuard
deriving DecidableEq, Repr

/-! ## Association-list primitives (the JS `Map` operations used by the source) -/

/-- `Map.get`. -/
def lookupKey {κ β : Type} [DecidableEq κ] (k : κ) : List (κ × β) → Option β
  | [] => none
  | (k', v) :: rest => if k' = k then some v else lookupKey k rest

/-- `Map.delete`. -/
def eraseKey {κ β : Type} [DecidableEq κ] (k : κ) (l : List (κ × β)) : List (κ × β) :=
  l.filter (fun kv => kv.1 ≠ k)

/-- `Map.set` (JS keeps the original position of an existing key). -/
def setKey {κ β : Type} [DecidableEq κ] (k : κ) (v : β) : List (κ × β) → List (κ × β)
  | [] => [(k, v)]
  | (k', v') :: rest => if k' = k then (k', v) :: rest else (k', v') :: setKey k v rest

theorem lookupKey_setKey_self {κ β : Type} [DecidableEq κ] (k : κ) (v : β)
    (l : List (κ × β)) : lookupKey k (setKey k v l) = some v := by
  induction l with
  | nil => simp [setKey, lookupKey]
  | cons hd tl ih =>
    by_cases h : hd.1 = k
    · simp [setKey, lookupKey, h]
    · simp [setKey, lookupKey, h, ih]

theorem lookupKey_eraseKey_self {κ β : Type} [DecidableEq κ] (k : κ)
    (l : List (κ × β)) : lookupKey k (eraseKey k l) = none := by
  induction l with
  | nil => simp [eraseKey, lookupKey]
  | cons hd tl ih =>
    by_cases h : hd.1 = k
    · simpa [eraseKey, h] using ih
    · simpa [eraseKey, lookupKey, h] using ih

theorem eraseKey_of_lookup_none {κ β : Type} [DecidableEq κ] (k : κ)
    (l : List (κ × β)) (h : lookupKey k l = none) : eraseKey k l = l := by
  induction l with
  | nil => rfl
  | cons hd tl ih =>
    by_cases hk : hd.1 = k
    · simp [lookupKey, hk] at h
    · simp [lookupKey, hk] at h
      simp [eraseKey, hk] at ih ⊢
      exact ih h

theorem eraseKey_setKey_self {κ β : Type} [DecidableEq κ] (k : κ) (v : β)
    (l : List (κ × β)) : eraseKey k (setKey k v l) = eraseKey k l := by
  induction l with
  | nil => simp [setKey, eraseKey]
  | cons hd tl ih =>
    by_cases h : hd.1 = k
    · simp [setKey, eraseKey, h] at ih ⊢
    · simp [setKey, eraseKey, h] at ih ⊢
      exact ih

theorem eraseKey_eraseKey {κ β : Type} [DecidableEq κ] (k : κ)
    (l : List (κ × β)) : eraseKey k (eraseKey k l) = eraseKey k l := by
  apply eraseKey_of_lookup_none
  exact lookupKey_eraseKey_self k l

theorem lookupKey_eq_none_of_eraseKey {κ β : Type} [DecidableEq κ] (k : κ)
    (l : List (κ × β)) : lookupKey k (eraseKey k l) = none :=
  lookupKey_eraseKey_self k l

/-! ## Set primitives (the JS `Set` operations used by the source) -/

/-- `Set.delete` on a `List PeerId`. -/
def eraseElem (p : PeerId) (l : List PeerId) : List PeerId :=
  l.filter (fun x => x ≠ p)

theorem not_mem_eraseElem (p : PeerId) (l : List PeerId) : p ∉ eraseElem p l := by
  simp [eraseElem]

theorem eraseElem_of_not_mem (p : PeerId) (l : List PeerId) (h : p ∉ l) :
    eraseElem p l = l := by
  induction l with
  | nil => rfl
  | cons hd tl ih =>
    simp at h
    simp [eraseElem, Ne.symm h.1] at ih ⊢
    exact ih h.2

theorem eraseElem_eraseElem (p : PeerId) (l : List PeerId) :
    eraseElem p (eraseElem p l) = eraseElem p l :=
  eraseElem_of_not_mem p _ (not_mem_eraseElem p l)

theorem eraseElem_cons_self (p : PeerId) (l : List PeerId) :
    eraseElem p (p :: l) = eraseElem p l := by
  simp [eraseElem]

/-! ## Service state

The mutable fields of class `WebRTCService` (lines 9-19 of the source).
`peerConnections` maps each peer to the id of its current session in the
heap `sessions`; `socketConnected` models `this.socket !== null`. -/

structure ServiceState where
  sessions : List (SessionId × Session)
  nextSessionId : SessionId
  peerConnections : List (PeerId × SessionId)
  remoteStreams : List PeerId
  pendingOffers : List (PeerId × SessionDescription)
  pendingAnswers : List (PeerId × SessionDescription)
  pendingCandidates : List (PeerId × List IceCandidate)
  processingOffers : List PeerId
  processingAnswers : List PeerId
  processingTimeouts : List (PeerId × TimerKind)
  socketConnected : Bool
deriving DecidableEq, Repr

/-- Outward emissions and platform calls a handler performs, in program order.
`scheduleHandleOffer`/`scheduleHandleAnswer` record the `setTimeout`-deferred
re-invocations the source schedules. -/
inductive Action
  | emitOffer (dest : PeerId) (offer : SessionDescription)
  | emitAnswer (dest : PeerId) (answer : SessionDescription)
  | emitStats (latency : ℚ) (up : Nat) (down : Nat)
  | applyIceCandidate (sid : SessionId) (c : IceCandidate)
  | closeSession (sid : SessionId)
  | createSession (sid : SessionId) (peer : PeerId)
  | scheduleHandleOffer (p : PeerId) (offer : SessionDescription)
  | scheduleHandleAnswer (p : PeerId) (answer : SessionDescription)
  | removeParticipant (p : PeerId)
deriving DecidableEq, Repr

/-- JavaScript exception thrown by a platform call; the source only inspects
whether `error.message` includes the substring "Called in wrong state". -/
inductive JsError
  | wrongState
  | other (msg : String)
deriving DecidableEq, Repr

/-- `error.message.includes("Called in wrong state")`. -/
def JsError.isWrongState : JsError → Bool
  | .wrongState => true
  | .other _ => false

/-- Per-call outcomes of the fallible platform operations (one handler
invocation performs each at most once): `none` = the call succeeds. -/
structure PlatformOracle where
  createOfferErr : Option JsError
  setLocalOfferErr : Option JsError
  setRemoteErr : Option JsError
  createAnswerErr : Option JsError
  setLocalAnswerErr : Option JsError
deriving DecidableEq, Repr

/-- The all-success oracle (every platform call resolves). -/
def successOracle : PlatformOracle := ⟨none, none, none, none, none⟩

/-! ## Session-heap primitives -/

def getSession (s : ServiceState) (sid : SessionId) : Option Session :=
  lookupKey sid s.sessions

def getPC (s : ServiceState) (p : PeerId) : Option SessionId :=
  lookupKey p s.peerConnections

/-- Update every heap entry with id `sid` in place (mutation of the object the
registry refers to). -/
def updateSession (sid : SessionId) (f : Session → Session) :
    List (SessionId × Session) → List (SessionId × Session)
  | [] => []
  | (k, v) :: rest =>
    if k = sid then (k, f v) :: updateSession sid f rest
    else (k, v) :: updateSession sid f rest

/-- `RTCPeerConnection.close()`: the signaling state becomes closed. -/
def Session.closeIt (t : Session) : Session :=
  { t with signalingState := .closed, connectionState := .closed }

def closeInHeap (sid : SessionId) (heap : List (SessionId × Session)) :
    List (SessionId × Session) :=
  updateSession sid Session.closeIt heap

/-- A freshly constructed `RTCPeerConnection` for peer `p`. -/
def freshSession (p : PeerId) : Session :=
  { peer := p, signalingState := .stable, localDescription := none,
    remoteDescription := none, connectionState := .new }

theorem lookupKey_updateSession (sid : SessionId) (f : Session → Session)
    (heap : List (SessionId × Session)) :
    lookupKey sid (updateSession sid f heap) = (lookupKey sid heap).map f := by
  induction heap with
  | nil => simp [updateSession, lookupKey]
  | cons hd tl ih =>
    obtain ⟨k, v⟩ := hd
    by_cases h : k = sid
    · simp [updateSession, lookupKey, h]
    · simp [updateSession, lookupKey, h, ih]

theorem lookupKey_updateSession_ne (sid sid' : SessionId) (f : Session → Session)
    (heap : List (SessionId × Session)) (h : sid' ≠ sid) :
    lookupKey sid' (updateSession sid f heap) = lookupKey sid' heap := by
  induction heap with
  | nil => simp [updateSession, lookupKey]
  | cons hd tl ih =>
    obtain ⟨k, v⟩ := hd
    by_cases hh : k = sid
    · subst hh
      simp [updateSession, lookupKey, Ne.symm h, ih]
    · by_cases hh2 : k = sid'
      · subst hh2
        simp [updateSession, lookupKey, h, hh]
      · simp [updateSession, lookupKey, hh, hh2, ih]

/-- "offer"/"answer" documents produced by `createOffer` / `createAnswer`
(content is irrelevant to every claim; only the type tag matters). -/
def mkOffer (p : PeerId) : SessionDescription := ⟨"offer", p⟩

def mkAnswer (p : PeerId) : SessionDescription := ⟨"answer", p⟩

/-! ## Handlers (translated from `webRTCService.ts`) -/

/-- `createPeerConnection(socketId, isInitiator)` (source lines 224-340).
Closes an existing connection for the peer, constructs the fresh one and
registers it, then: initiator — `createOffer`/`setLocalDescription`/emit, on
failure close + deregister + rethrow (the `Except.error` carries the mutated
state the caller's `catch` observes); non-initiator — pop a buffered answer
and offer (when no apply is in flight for that kind) and schedule their
deferred re-processing. Track attachment and the event-handler wiring have no
bearing on any claim and are not modelled. -/
def createPeerConnection (s₀ : ServiceState) (socketId : PeerId)
    (isInitiator : Bool) (oracle : PlatformOracle) :
    Except (JsError × ServiceState × List Action)
      (ServiceState × SessionId × List Action) :=
  let closeStep :=
    match lookupKey socketId s₀.peerConnections with
    | some oldSid =>
        ({ s₀ with sessions := closeInHeap oldSid s₀.sessions },
         [Action.closeSession oldSid])
    | none => (s₀, [])
  let s₁ := closeStep.1
  let acts₁ := closeStep.2
  let sid := s₁.nextSessionId
  let s₂ := { s₁ with
    sessions := s₁.sessions ++ [(sid, freshSession socketId)],
    nextSessionId := sid + 1,
    peerConnections := setKey socketId sid s₁.peerConnections }
  let acts₂ := acts₁ ++ [Action.createSession sid socketId]
  if isInitiator then
    match oracle.createOfferErr with
    | some e =>
        Except.error (e,
          { s₂ with sessions := closeInHeap sid s₂.sessions,
                    peerConnections := eraseKey socketId s₂.peerConnections },
          acts₂ ++ [Action.closeSession sid])
    | none =>
      let offer := mkOffer socketId
      match oracle.setLocalOfferErr with
      | some e =>
          Except.error (e,
            { s₂ with sessions := closeInHeap sid s₂.sessions,
                      peerConnections := eraseKey socketId s₂.peerConnections },
            acts₂ ++ [Action.closeSession sid])
      | none =>
        let commitLocalOffer : Session → Session := fun t =>
          { t with localDescription := some offer, signalingState := .haveLocalOffer }
        let s₃ := { s₂ with sessions := updateSession sid commitLocalOffer s₂.sessions }
        let emits := if s₃.socketConnected then [Action.emitOffer socketId offer] else []
        Except.ok (s₃, sid, acts₂ ++ emits)
  else
    let ansStep :=
      match lookupKey socketId s₂.pendingAnswers with
      | some ans =>
          if socketId ∈ s₂.processingAnswers then (s₂, ([] : List Action))
          else ({ s₂ with pendingAnswers := eraseKey socketId s₂.pendingAnswers },
                [Action.scheduleHandleAnswer socketId ans])
      | none => (s₂, [])
    let s₃ := ansStep.1
    let offStep :=
      match lookupKey socketId s₃.pendingOffers with
      | some off =>
          if socketId ∈ s₃.processingOffers then (s₃, ([] : List Action))
          else ({ s₃ with pendingOffers := eraseKey socketId s₃.pendingOffers },
                [Action.scheduleHandleOffer socketId off])
      | none => (s₃, [])
    Except.ok (offStep.1, sid, acts₂ ++ ansStep.2 ++ offStep.2)

/-- `processPendingCandidates(socketId)` (source lines 646-675): once the
peer's session has a remote description, apply the buffered candidates in
order and clear the buffer; per-candidate failures are logged only and do not
change what is attempted, so the trace lists every buffered candidate. -/
def processPendingCandidates (s : ServiceState) (socketId : PeerId) :
    ServiceState × List Action :=
  match lookupKey socketId s.pendingCandidates with
  | none => (s, [])
  | some cands =>
    if cands.isEmpty then (s, [])
    else
      match getPC s socketId with
      | none => (s, [])
      | some sid =>
        match getSession s sid with
        | none => (s, [])
        | some ses =>
          if ses.remoteDescription.isSome then
            ({ s with pendingCandidates := eraseKey socketId s.pendingCandidates },
             cands.map (Action.applyIceCandidate sid))
          else (s, [])

/-- The candidate-buffering step of `handleIceCandidate` (lines 618-621 and
635-638): ensure the peer has a buffer and push the candidate at its end. -/
def bufferCandidate (s : ServiceState) (socketId : PeerId)
    (candidate : IceCandidate) : List (PeerId × List IceCandidate) :=
  setKey socketId (((lookupKey socketId s.pendingCandidates).getD []) ++ [candidate])
    s.pendingCandidates

/-- `handleIceCandidate(socketId, candidate)` (source lines 607-643): apply
immediately when the peer has a session with a remote description, otherwise
append to the peer's pending-candidate buffer. -/
def handleIceCandidate (s : ServiceState) (socketId : PeerId)
    (candidate : IceCandidate) : ServiceState × List Action :=
  let buffered := bufferCandidate s socketId candidate
  match getPC s socketId with
  | none => ({ s with pendingCandidates := buffered }, [])
  | some sid =>
    match getSession s sid with
    | none => (s, [])
    | some ses =>
      if ses.remoteDescription.isSome then
        (s, [Action.applyIceCandidate sid candidate])
      else
        ({ s with pendingCandidates := buffered }, [])

/-- The `try` block of `handleOffer` (source lines 371-463). The third
component is `some e` when a platform call threw and the exception reaches the
`catch`. The source's re-reads of `signalingState` between its `await`
boundaries re-observe the same unmutated session in this sequential embedding;
they are translated as re-tests of the value just established. -/
def handleOfferBody (s₁ : ServiceState) (socketId : PeerId)
    (offer : SessionDescription) (oracle : PlatformOracle) :
    ServiceState × List Action × Option JsError :=
  let createStep :=
    match getPC s₁ socketId with
    | some sid => Except.ok (s₁, sid, ([] : List Action))
    | none => createPeerConnection s₁ socketId false oracle
  match createStep with
  | Except.error (e, se, actse) => (se, actse, some e)
  | Except.ok (s₂, sid₀, acts₀) =>
    match getSession s₂ sid₀ with
    | none => (s₂, acts₀, none)
    | some ses₀ =>
      -- offer collision ("glare"): discard local offer, recreate as answerer
      let glareStep :=
        if ses₀.signalingState = .haveLocalOffer then
          match createPeerConnection
            { s₂ with sessions := closeInHeap sid₀ s₂.sessions }
            socketId false oracle with
          | Except.ok (s', sid', acts') =>
              Except.ok (s', sid', acts₀ ++ [Action.closeSession sid₀] ++ acts')
          | Except.error (e, se, actse) =>
              Except.error (e, se, acts₀ ++ [Action.closeSession sid₀] ++ actse)
        else Except.ok (s₂, sid₀, acts₀)
      match glareStep with
      | Except.error (e, se, actse) => (se, actse, some e)
      | Except.ok (s₃, sid, acts) =>
        match getSession s₃ sid with
        | none => (s₃, acts, none)
        | some ses =>
          if ses.signalingState = .stable then
            -- final state re-check before the critical operation (line 400)
            if ses.signalingState ≠ .stable then
              ({ s₃ with pendingOffers := setKey socketId offer s₃.pendingOffers },
               acts, none)
            else if ses.remoteDescription.isSome then
              (s₃, acts, none)  -- duplicate offer, ignore (line 408)
            else
              match oracle.setRemoteErr with
              | some e => (s₃, acts, some e)
              | none =>
                let commitRemoteOffer : Session → Session := fun t =>
                  { t with remoteDescription := some offer,
                           signalingState := .haveRemoteOffer }
                let s₄ := { s₃ with
                  sessions := updateSession sid commitRemoteOffer s₃.sessions }
                -- state re-check after setting the remote offer (line 419)
                let sesA : Session :=
                  { ses with remoteDescription := some offer,
                             signalingState := .haveRemoteOffer }
                if sesA.signalingState ≠ .haveRemoteOffer then (s₄, acts, none)
                else
                  match oracle.createAnswerErr with
                  | some e => (s₄, acts, some e)
                  | none =>
                    let answer := mkAnswer socketId
                    -- state re-checks before setting the local answer (431, 439)
                    if sesA.signalingState ≠ .haveRemoteOffer then (s₄, acts, none)
                    else if sesA.localDescription.isSome then (s₄, acts, none)
                    else
                      match oracle.setLocalAnswerErr with
                      | some e => (s₄, acts, some e)
                      | none =>
                        let commitLocalAnswer : Session → Session := fun t =>
                          { t with localDescription := some answer,
                                   signalingState := .stable }
                        let s₅ := { s₄ with
                          sessions := updateSession sid commitLocalAnswer s₄.sessions }
                        let emits := if s₅.socketConnected
                          then [Action.emitAnswer socketId answer] else []
                        let flush := processPendingCandidates s₅ socketId
                        (flush.1, acts ++ emits ++ flush.2, none)
          else
            ({ s₃ with pendingOffers := setKey socketId offer s₃.pendingOffers },
             acts, none)

/-- The `catch` block shared by `handleOffer` (lines 464-479): a
wrong-state error buffers the offer for retry; any other error closes the
peer's connection and removes it from the registry. -/
def offerCatch (s : ServiceState) (socketId : PeerId)
    (offer : SessionDescription) (e : JsError) : ServiceState × List Action :=
  if e.isWrongState then
    ({ s with pendingOffers := setKey socketId offer s.pendingOffers }, [])
  else
    match getPC s socketId with
    | some sid =>
        ({ s with sessions := closeInHeap sid s.sessions,
                  peerConnections := eraseKey socketId s.peerConnections },
         [Action.closeSession sid])
    | none => (s, [])

/-- The `finally` block shared by both handlers (lines 480-488, 595-603):
release the guard and clear the deadline timer. -/
def guardRelease (s : ServiceState) (socketId : PeerId)
    (isOffer : Bool) : ServiceState :=
  let s' := if isOffer
    then { s with processingOffers := eraseElem socketId s.processingOffers }
    else { s with processingAnswers := eraseElem socketId s.processingAnswers }
  match lookupKey socketId s'.processingTimeouts with
  | some _ => { s' with processingTimeouts := eraseKey socketId s'.processingTimeouts }
  | none => s'

/-- `handleOffer(socketId, offer)` (source lines 343-489). -/
def handleOffer (s₀ : ServiceState) (socketId : PeerId)
    (offer : SessionDescription) (oracle : PlatformOracle) :
    ServiceState × List Action :=
  if socketId ∈ s₀.processingOffers then
    ({ s₀ with pendingOffers := setKey socketId offer s₀.pendingOffers }, [])
  else
    let s₁ := { s₀ with
      processingOffers := socketId :: s₀.processingOffers,
      processingTimeouts := setKey socketId .offerGuard s₀.processingTimeouts }
    let body := handleOfferBody s₁ socketId offer oracle
    let afterCatch :=
      match body.2.2 with
      | some e =>
          let c := offerCatch body.1 socketId offer e
          (c.1, body.2.1 ++ c.2)
      | none => (body.1, body.2.1)
    (guardRelease afterCatch.1 socketId true, afterCatch.2)

/-- The `try` block of `handleAnswer` (source lines 520-578). -/
def handleAnswerBody (s₁ : ServiceState) (socketId : PeerId)
    (answer : SessionDescription) (oracle : PlatformOracle) :
    ServiceState × List Action × Option JsError :=
  match getPC s₁ socketId with
  | none =>
      ({ s₁ with pendingAnswers := setKey socketId answer s₁.pendingAnswers },
       [], none)
  | some sid =>
    match getSession s₁ sid with
    | none => (s₁, [], none)
    | some ses =>
      if ses.remoteDescription.isSome then
        (s₁, [], none)  -- duplicate answer, ignore (line 536)
      else if ses.signalingState = .haveLocalOffer then
        -- final state re-checks before the critical operation (548, 556)
        if ses.signalingState ≠ .haveLocalOffer then
          ({ s₁ with pendingAnswers := setKey socketId answer s₁.pendingAnswers },
           [], none)
        else if ses.remoteDescription.isSome then (s₁, [], none)
        else
          match oracle.setRemoteErr with
          | some e => (s₁, [], some e)
          | none =>
            let commitRemoteAnswer : Session → Session := fun t =>
              { t with remoteDescription := some answer, signalingState := .stable }
            let s₂ := { s₁ with
              sessions := updateSession sid commitRemoteAnswer s₁.sessions }
            let flush := processPendingCandidates s₂ socketId
            (flush.1, flush.2, none)
      else if ses.signalingState = .stable then
        (s₁, [], none)  -- already stable: duplicate, drop (line 568)
      else
        ({ s₁ with pendingAnswers := setKey socketId answer s₁.pendingAnswers },
         [], none)

/-- The `catch` block of `handleAnswer` (lines 579-594). -/
def answerCatch (s : ServiceState) (socketId : PeerId)
    (answer : SessionDescription) (e : JsError) : ServiceState × List Action :=
  if e.isWrongState then
    ({ s with pendingAnswers := setKey socketId answer s.pendingAnswers }, [])
  else
    match getPC s socketId with
    | some sid =>
        ({ s with sessions := closeInHeap sid s.sessions,
                  peerConnections := eraseKey socketId s.peerConnections },
         [Action.closeSession sid])
    | none => (s, [])

/-- `handleAnswer(socketId, answer)` (source lines 492-604). -/
def handleAnswer (s₀ : ServiceState) (socketId : PeerId)
    (answer : SessionDescription) (oracle : PlatformOracle) :
    ServiceState × List Action :=
  if socketId ∈ s₀.processingAnswers then
    ({ s₀ with pendingAnswers := setKey socketId answer s₀.pendingAnswers }, [])
  else
    let s₁ := { s₀ with
      processingAnswers := socketId :: s₀.processingAnswers,
      processingTimeouts := setKey socketId .answerGuard s₀.processingTimeouts }
    let body := handleAnswerBody s₁ socketId answer oracle
    let afterCatch :=
      match body.2.2 with
      | some e =>
          let c := answerCatch body.1 socketId answer e
          (c.1, body.2.1 ++ c.2)
      | none => (body.1, body.2.1)
    (guardRelease afterCatch.1 socketId false, afterCatch.2)

/-- The 5-second offer-guard deadline firing (the callback at lines 361-367):
force-release the guard and drop the timer entry. -/
def offerTimeoutFire (s : ServiceState) (socketId : PeerId) : ServiceState :=
  { s with processingOffers := eraseElem socketId s.processingOffers,
           processingTimeouts := eraseKey socketId s.processingTimeouts }

/-- The 5-second answer-guard deadline firing (the callback at lines 510-516). -/
def answerTimeoutFire (s : ServiceState) (socketId : PeerId) : ServiceState :=
  { s with processingAnswers := eraseElem socketId s.processingAnswers,
           processingTimeouts := eraseKey socketId s.processingTimeouts }

/-- `handleUserLeft(socketId)` (source lines 678-705): close the session if
present and clear every piece of per-peer state, then notify participant
removal. -/
def handleUserLeft (s : ServiceState) (socketId : PeerId) :
    ServiceState × List Action :=
  let closeStep :=
    match getPC s socketId with
    | some sid =>
        ({ s with sessions := closeInHeap sid s.sessions,
                  peerConnections := eraseKey socketId s.peerConnections },
         [Action.closeSession sid])
    | none => (s, ([] : List Action))
  let s₁ := closeStep.1
  let s₂ := { s₁ with
    remoteStreams := eraseElem socketId s₁.remoteStreams,
    pendingOffers := eraseKey socketId s₁.pendingOffers,
    pendingAnswers := eraseKey socketId s₁.pendingAnswers,
    pendingCandidates := eraseKey socketId s₁.pendingCandidates,
    processingAnswers := eraseElem socketId s₁.processingAnswers,
    processingOffers := eraseElem socketId s₁.processingOffers }
  let s₃ :=
    match lookupKey socketId s₂.processingTimeouts with
    | some _ => { s₂ with processingTimeouts := eraseKey socketId s₂.processingTimeouts }
    | none => s₂
  (s₃, closeStep.2 ++ [Action.removeParticipant socketId])

/-- The `onconnectionstatechange` handler installed by `createPeerConnection`
(source lines 284-295): the platform moves the session's connection state to
`newState` and the handler then tears the peer down when that state is
"failed". -/
def onConnectionStateChange (s : ServiceState) (socketId : PeerId)
    (newState : ConnectionState) : ServiceState × List Action :=
  match getPC s socketId with
  | none => (s, [])
  | some sid =>
    let setConn : Session → Session := fun t => { t with connectionState := newState }
    let s₁ := { s with sessions := updateSession sid setConn s.sessions }
    if newState = .failed then handleUserLeft s₁ socketId else (s₁, [])

/-! ## Statistics sampler (source lines 827-959) -/

/-- One entry of an `RTCStatsReport`. JavaScript truthiness collapses a missing
numeric field and `0` to the same falsy branch, so absent numeric fields are
represented as `0` and absent strings as `""`. `currentRoundTripTime` is in
seconds. -/
structure StatsReport where
  rtype : String
  rstate : String
  kind : String
  currentRoundTripTime : ℚ
  bytesSent : Nat
  bytesReceived : Nat
deriving DecidableEq, Repr

/-- Accumulator variables of `collectConnectionStats` (lines 915-918). -/
structure StatsAcc where
  totalLatency : ℚ
  totalBandwidthUp : Nat
  totalBandwidthDown : Nat
  connectionCount : Nat
deriving DecidableEq, Repr

/-- First conditional of the `stats.forEach` body (lines 925-933): a
succeeded candidate-pair with a truthy round-trip time contributes to the
latency average. -/
def latencyStep (acc : StatsAcc) (r : StatsReport) : StatsAcc :=
  if r.rtype = "candidate-pair" ∧ r.rstate = "succeeded" ∧ r.currentRoundTripTime ≠ 0
  then { acc with totalLatency := acc.totalLatency + r.currentRoundTripTime * 1000,
                  connectionCount := acc.connectionCount + 1 }
  else acc

/-- Second conditional (lines 935-939): outbound video bytes. -/
def upStep (acc : StatsAcc) (r : StatsReport) : StatsAcc :=
  if r.rtype = "outbound-rtp" ∧ r.kind = "video" ∧ r.bytesSent ≠ 0
  then { acc with totalBandwidthUp := acc.totalBandwidthUp + r.bytesSent }
  else acc

/-- Third conditional (lines 941-945): inbound video bytes. -/
def downStep (acc : StatsAcc) (r : StatsReport) : StatsAcc :=
  if r.rtype = "inbound-rtp" ∧ r.kind = "video" ∧ r.bytesReceived ≠ 0
  then { acc with totalBandwidthDown := acc.totalBandwidthDown + r.bytesReceived }
  else acc

/-- The `stats.forEach` body (lines 924-946): the three conditionals in
program order. -/
def processReport (acc : StatsAcc) (r : StatsReport) : StatsAcc :=
  downStep (upStep (latencyStep acc r) r) r

/-- Result of `collectConnectionStats`. -/
structure CollectedStats where
  latency : ℚ
  up : Nat
  down : Nat
deriving DecidableEq, Repr

/-- `collectConnectionStats()` (lines 911-959): fold the current stats reports
of every registered peer connection; the mean is taken over peers with a
truthy round-trip-time measurement, `0` when there is none. `getReports sid`
is what `peerConnection.getStats()` resolves to on this tick. -/
def collectConnectionStats (s : ServiceState)
    (getReports : SessionId → List StatsReport) : CollectedStats :=
  let acc := s.peerConnections.foldl
    (fun acc pc => (getReports pc.2).foldl processReport acc)
    ⟨0, 0, 0, 0⟩
  { latency := if acc.connectionCount > 0
      then acc.totalLatency / (acc.connectionCount : ℚ) else 0,
    up := acc.totalBandwidthUp,
    down := acc.totalBandwidthDown }

/-- The emission decision of the sampler tick (lines 832-837): send
`stats-update` iff the socket is connected and the aggregate latency is
positive. -/
def statsTickEmit (s : ServiceState)
    (getReports : SessionId → List StatsReport) : List Action :=
  let stats := collectConnectionStats s getReports
  if s.socketConnected && decide (stats.latency > 0) then
    [Action.emitStats stats.latency stats.up stats.down]
  else []

/-- A report that contributes a round-trip-time measurement (the condition of
the latency branch of `processReport`). -/
def isMeasurement (r : StatsReport) : Bool :=
  r.rtype = "candidate-pair" && r.rstate = "succeeded" && r.currentRoundTripTime ≠ 0

/-- Some registered peer produced a round-trip-time measurement on this tick. -/
def hasMeasurement (s : ServiceState)
    (getReports : SessionId → List StatsReport) : Bool :=
  s.peerConnections.any (fun pc => (getReports pc.2).any isMeasurement)

/-! ## Connection quality (source lines 1015-1029) -/

/-- One element of the global `connectionStats` array (only its latency is
read by `getConnectionQuality`). -/
structure ConnectionStatsEntry where
  latency : ℚ
deriving DecidableEq, Repr

/-- The local `avgLatency` of `getConnectionQuality` (lines 1021-1023). -/
def avgLatency (connectionStats : List ConnectionStatsEntry) : ℚ :=
  (connectionStats.foldl (fun sum stat => sum + stat.latency) 0) /
    (connectionStats.length : ℚ)

/-- `getConnectionQuality()` (lines 1015-1029). -/
def getConnectionQuality (connectionStats : List ConnectionStatsEntry) : String :=
  if connectionStats.length = 0 then "excellent"
  else
    if avgLatency connectionStats < 50 then "excellent"
    else if avgLatency connectionStats < 100 then "good"
    else if avgLatency connectionStats < 200 then "fair"
    else "poor"

/-! ## Claim C6 — quality classification -/

/-- Claim C6: the connection-quality classification computed from the mean
latency is: mean < 50 ms yields excellent, 50 ≤ mean < 100 good,
100 ≤ mean < 200 fair, mean ≥ 200 poor; the empty stats list yields
excellent; and in particular mean 40 ms gives excellent, 80 good, 150 fair,
250 poor. -/
theorem claim_C6 (stats : List ConnectionStatsEntry) :
    (stats = [] → getConnectionQuality stats = "excellent") ∧
    (stats ≠ [] →
      ((avgLatency stats < 50 → getConnectionQuality stats = "excellent") ∧
       (50 ≤ avgLatency stats → avgLatency stats < 100 →
          getConnectionQuality stats = "good") ∧
       (100 ≤ avgLatency stats → avgLatency stats < 200 →
          getConnectionQuality stats = "fair") ∧
       (200 ≤ avgLatency stats → getConnectionQuality stats = "poor"))) ∧
    getConnectionQuality [⟨40⟩] = "excellent" ∧
    getConnectionQuality [⟨80⟩] = "good" ∧
    getConnectionQuality [⟨150⟩] = "fair" ∧
    getConnectionQuality [⟨250⟩] = "poor" := by
  refine ⟨?_, ?_, ?_, ?_, ?_, ?_⟩
  · intro h
    simp [getConnectionQuality, h]
  · intro h
    have hlen : stats.length ≠ 0 := by simpa using h
    refine ⟨?_, ?_, ?_, ?_⟩ <;> intros <;>
      simp only [getConnectionQuality, if_neg hlen] <;>
      split_ifs <;> first | rfl | linarith
  · norm_num [getConnectionQuality, avgLatency]
  · norm_num [getConnectionQuality, avgLatency]
  · norm_num [getConnectionQuality, avgLatency]
  · norm_num [getConnectionQuality, avgLatency]

/-- Witness for C6 at the concrete input `[80 ms]`. -/
theorem claim_C6_witness : getConnectionQuality [⟨80⟩] = "good" :=
  ((claim_C6 [⟨(80 : ℚ)⟩]).2.1 (by simp)).2.1
    (by norm_num [avgLatency]) (by norm_num [avgLatency])

/-! ## Claim C4 — bandwidth aggregation (corrected)

The W3C `outbound-rtp` / `inbound-rtp` counters `bytesSent` /
`bytesReceived` are cumulative totals since the start of the connection.
`collectConnectionStats` adds the counter values of the current reports with
no memory of a previous read, so the reported bandwidth is the cumulative
total, not a per-interval delta. -/

/-- Sum of the `bytesSent` counters over the outbound video reports (what the
claimed "bandwidth part" should be computed from, before any delta). -/
def sumOutboundVideoBytes : List StatsReport → Nat
  | [] => 0
  | r :: rs =>
      (if r.rtype = "outbound-rtp" ∧ r.kind = "video" then r.bytesSent else 0) +
        sumOutboundVideoBytes rs

/-- Sum of the `bytesReceived` counters over the inbound video reports. -/
def sumInboundVideoBytes : List StatsReport → Nat
  | [] => 0
  | r :: rs =>
      (if r.rtype = "inbound-rtp" ∧ r.kind = "video" then r.bytesReceived else 0) +
        sumInboundVideoBytes rs

/-- Cumulative outbound video bytes over all registered peer connections. -/
def totalOutboundVideoBytes (pcs : List (PeerId × SessionId))
    (getReports : SessionId → List StatsReport) : Nat :=
  match pcs with
  | [] => 0
  | pc :: rest =>
      sumOutboundVideoBytes (getReports pc.2) + totalOutboundVideoBytes rest getReports

/-- Cumulative inbound video bytes over all registered peer connections. -/
def totalInboundVideoBytes (pcs : List (PeerId × SessionId))
    (getReports : SessionId → List StatsReport) : Nat :=
  match pcs with
  | [] => 0
  | pc :: rest =>
      sumInboundVideoBytes (getReports pc.2) + totalInboundVideoBytes rest getReports

theorem processReport_up (acc : StatsAcc) (r : StatsReport) :
    (processReport acc r).totalBandwidthUp = acc.totalBandwidthUp +
      (if r.rtype = "outbound-rtp" ∧ r.kind = "video" then r.bytesSent else 0) := by
  simp only [processReport, downStep, upStep, latencyStep]
  split_ifs <;> simp_all

theorem processReport_down (acc : StatsAcc) (r : StatsReport) :
    (processReport acc r).totalBandwidthDown = acc.totalBandwidthDown +
      (if r.rtype = "inbound-rtp" ∧ r.kind = "video" then r.bytesReceived else 0) := by
  simp only [processReport, downStep, upStep, latencyStep]
  split_ifs <;> simp_all

theorem foldl_processReport_up (rs : List StatsReport) (acc : StatsAcc) :
    (rs.foldl processReport acc).totalBandwidthUp =
      acc.totalBandwidthUp + sumOutboundVideoBytes rs := by
  induction rs generalizing acc with
  | nil => simp [sumOutboundVideoBytes]
  | cons r rest ih =>
    simp only [List.foldl_cons, sumOutboundVideoBytes, ih, processReport_up]
    omega

theorem foldl_processReport_down (rs : List StatsReport) (acc : StatsAcc) :
    (rs.foldl processReport acc).totalBandwidthDown =
      acc.totalBandwidthDown + sumInboundVideoBytes rs := by
  induction rs generalizing acc with
  | nil => simp [sumInboundVideoBytes]
  | cons r rest ih =>
    simp only [List.foldl_cons, sumInboundVideoBytes, ih, processReport_down]
    omega

theorem collect_up_total (pcs : List (PeerId × SessionId)) (acc : StatsAcc)
    (getReports : SessionId → List StatsReport) :
    (pcs.foldl (fun a pc => (getReports pc.2).foldl processReport a) acc).totalBandwidthUp
      = acc.totalBandwidthUp + totalOutboundVideoBytes pcs getReports := by
  induction pcs generalizing acc with
  | nil => simp [totalOutboundVideoBytes]
  | cons pc rest ih =>
    simp only [List.foldl_cons, totalOutboundVideoBytes, ih, foldl_processReport_up]
    omega

theorem collect_down_total (pcs : List (PeerId × SessionId)) (acc : StatsAcc)
    (getReports : SessionId → List StatsReport) :
    (pcs.foldl (fun a pc => (getReports pc.2).foldl processReport a) acc).totalBandwidthDown
      = acc.totalBandwidthDown + totalInboundVideoBytes pcs getReports := by
  induction pcs generalizing acc with
  | nil => simp [totalInboundVideoBytes]
  | cons pc rest ih =>
    simp only [List.foldl_cons, totalInboundVideoBytes, ih, foldl_processReport_down]
    omega

/-- A completed (stable, fully described) session for peer "B". -/
def c4Session : Session :=
  { peer := "B", signalingState := .stable, localDescription := some (mkOffer "B"),
    remoteDescription := some (mkAnswer "B"), connectionState := .connected }

/-- A state with one connected peer and one completed session, used to read
the bandwidth report on two successive sampler ticks. -/
def c4State : ServiceState :=
  { sessions := [(0, c4Session)],
    nextSessionId := 1, peerConnections := [("B", 0)], remoteStreams := [],
    pendingOffers := [], pendingAnswers := [], pendingCandidates := [],
    processingOffers := [], processingAnswers := [], processingTimeouts := [],
    socketConnected := true }

/-- The `outbound-rtp` video report carrying the platform's cumulative
`bytesSent` counter. -/
def c4Report (bytes : Nat) : StatsReport :=
  { rtype := "outbound-rtp", rstate := "", kind := "video",
    currentRoundTripTime := 0, bytesSent := bytes, bytesReceived := 0 }

/-- Counterexample to claim C4 as stated. The session's cumulative
`bytesSent` counter reads 100 at one sampler tick and 150 at the next, so
the bytes accumulated since the previous read are 150 - 100 = 50; the code
reports 150, the cumulative total. -/
theorem claim_C4_counterexample :
    (collectConnectionStats c4State (fun _ => [c4Report 100])).up = 100 ∧
    (collectConnectionStats c4State (fun _ => [c4Report 150])).up = 150 ∧
    150 - 100 = 50 ∧
    (collectConnectionStats c4State (fun _ => [c4Report 150])).up ≠ 150 - 100 := by
  have h1 := collect_up_total c4State.peerConnections ⟨0, 0, 0, 0⟩
    (fun _ => [c4Report 100])
  have h2 := collect_up_total c4State.peerConnections ⟨0, 0, 0, 0⟩
    (fun _ => [c4Report 150])
  refine ⟨?_, ?_, by norm_num, ?_⟩ <;>
    simp_all [collectConnectionStats, c4State, c4Report,
      totalOutboundVideoBytes, sumOutboundVideoBytes]

/-- Claim C4, amended: on every sampler tick the bandwidth part of the
reported aggregate equals the sum over all registered peer sessions of the
current cumulative outbound and inbound video byte counters (totals since
connection start), not a per-interval delta. -/
theorem claim_C4 (s : ServiceState) (getReports : SessionId → List StatsReport) :
    (collectConnectionStats s getReports).up =
      totalOutboundVideoBytes s.peerConnections getReports ∧
    (collectConnectionStats s getReports).down =
      totalInboundVideoBytes s.peerConnections getReports := by
  constructor
  · simpa using collect_up_total s.peerConnections ⟨0, 0, 0, 0⟩ getReports
  · simpa using collect_down_total s.peerConnections ⟨0, 0, 0, 0⟩ getReports

/-! ## Claim C5 — emission iff a measurement exists -/

theorem upStep_totalLatency (acc : StatsAcc) (r : StatsReport) :
    (upStep acc r).totalLatency = acc.totalLatency := by
  simp only [upStep]; split_ifs <;> rfl

theorem upStep_connectionCount (acc : StatsAcc) (r : StatsReport) :
    (upStep acc r).connectionCount = acc.connectionCount := by
  simp only [upStep]; split_ifs <;> rfl

theorem downStep_totalLatency (acc : StatsAcc) (r : StatsReport) :
    (downStep acc r).totalLatency = acc.totalLatency := by
  simp only [downStep]; split_ifs <;> rfl

theorem downStep_connectionCount (acc : StatsAcc) (r : StatsReport) :
    (downStep acc r).connectionCount = acc.connectionCount := by
  simp only [downStep]; split_ifs <;> rfl

/-- Number of round-trip-time measurements among a report list. -/
def countMeasurements : List StatsReport → Nat
  | [] => 0
  | r :: rs => (if isMeasurement r then 1 else 0) + countMeasurements rs

/-- Number of measurements over all registered peer connections. -/
def totalMeasurements (pcs : List (PeerId × SessionId))
    (getReports : SessionId → List StatsReport) : Nat :=
  match pcs with
  | [] => 0
  | pc :: rest =>
      countMeasurements (getReports pc.2) + totalMeasurements rest getReports

theorem processReport_count (acc : StatsAcc) (r : StatsReport) :
    (processReport acc r).connectionCount =
      acc.connectionCount + (if isMeasurement r then 1 else 0) := by
  simp only [processReport, downStep_connectionCount, upStep_connectionCount,
    latencyStep, isMeasurement]
  split_ifs <;> simp_all

theorem foldl_processReport_count (rs : List StatsReport) (acc : StatsAcc) :
    (rs.foldl processReport acc).connectionCount =
      acc.connectionCount + countMeasurements rs := by
  induction rs generalizing acc with
  | nil => simp [countMeasurements]
  | cons r rest ih =>
    simp only [List.foldl_cons, countMeasurements, ih, processReport_count]
    omega

theorem collect_count_total (pcs : List (PeerId × SessionId)) (acc : StatsAcc)
    (getReports : SessionId → List StatsReport) :
    (pcs.foldl (fun a pc => (getReports pc.2).foldl processReport a) acc).connectionCount
      = acc.connectionCount + totalMeasurements pcs getReports := by
  induction pcs generalizing acc with
  | nil => simp [totalMeasurements]
  | cons pc rest ih =>
    simp only [List.foldl_cons, totalMeasurements, ih, foldl_processReport_count]
    omega

theorem countMeasurements_pos (rs : List StatsReport) :
    0 < countMeasurements rs ↔ rs.any isMeasurement = true := by
  induction rs with
  | nil => simp [countMeasurements]
  | cons r rest ih =>
    by_cases h : isMeasurement r <;> simp [countMeasurements, h, ih]

theorem anyMeasurement_iff (pcs : List (PeerId × SessionId))
    (getReports : SessionId → List StatsReport) :
    pcs.any (fun pc => (getReports pc.2).any isMeasurement) = true ↔
      0 < totalMeasurements pcs getReports := by
  induction pcs with
  | nil => simp [totalMeasurements]
  | cons pc rest ih =>
    simp only [List.any_cons, totalMeasurements, Bool.or_eq_true, ih,
      ← countMeasurements_pos]
    omega

/-- Invariant of the stats accumulator: its latency sum is non-negative and
is positive exactly when a measurement has been counted. -/
def accGood (acc : StatsAcc) : Prop :=
  0 ≤ acc.totalLatency ∧ (acc.connectionCount = 0 → acc.totalLatency = 0) ∧
    (0 < acc.connectionCount → 0 < acc.totalLatency)

theorem processReport_good (acc : StatsAcc) (r : StatsReport)
    (hr : 0 ≤ r.currentRoundTripTime) (h : accGood acc) :
    accGood (processReport acc r) := by
  obtain ⟨h0, h1, h2⟩ := h
  simp only [accGood, processReport, downStep_totalLatency, upStep_totalLatency,
    downStep_connectionCount, upStep_connectionCount, latencyStep]
  split_ifs with hc
  · obtain ⟨-, -, hne⟩ := hc
    have hpos : 0 < r.currentRoundTripTime * 1000 := by
      have : 0 < r.currentRoundTripTime := lt_of_le_of_ne hr (Ne.symm hne)
      positivity
    refine ⟨by positivity, by simp, fun _ => by positivity⟩
  · exact ⟨h0, h1, h2⟩

theorem foldl_processReport_good (rs : List StatsReport) (acc : StatsAcc)
    (hrs : ∀ r ∈ rs, 0 ≤ r.currentRoundTripTime) (h : accGood acc) :
    accGood (rs.foldl processReport acc) := by
  induction rs generalizing acc with
  | nil => simpa
  | cons r rest ih =>
    simp only [List.foldl_cons]
    exact ih _ (fun x hx => hrs x (List.mem_cons_of_mem _ hx))
      (processReport_good _ _ (hrs r (List.mem_cons_self _ _)) h)

theorem collect_good (pcs : List (PeerId × SessionId)) (acc : StatsAcc)
    (getReports : SessionId → List StatsReport)
    (hrs : ∀ pc ∈ pcs, ∀ r ∈ getReports pc.2, 0 ≤ r.currentRoundTripTime)
    (h : accGood acc) :
    accGood (pcs.foldl (fun a pc => (getReports pc.2).foldl processReport a) acc) := by
  induction pcs generalizing acc with
  | nil => simpa
  | cons pc rest ih =>
    simp only [List.foldl_cons]
    exact ih _ (fun x hx => hrs x (List.mem_cons_of_mem _ hx))
      (foldl_processReport_good _ _ (hrs pc (List.mem_cons_self _ _)) h)

/-- Claim C5: with the socket connected, the sampler tick emits the aggregate
stats-update message iff at least one peer produced a round-trip-time
measurement on that tick; with no measurement the aggregate latency is 0 and
nothing is emitted. Round-trip times are non-negative (they are physical
durations). -/
theorem claim_C5 (s : ServiceState) (getReports : SessionId → List StatsReport)
    (hsock : s.socketConnected = true)
    (hrtt : ∀ pc ∈ s.peerConnections, ∀ r ∈ getReports pc.2,
      0 ≤ r.currentRoundTripTime) :
    (statsTickEmit s getReports ≠ [] ↔ hasMeasurement s getReports = true) ∧
    (hasMeasurement s getReports = false →
      (collectConnectionStats s getReports).latency = 0 ∧
      statsTickEmit s getReports = []) := by
  classical
  have hgood : accGood (s.peerConnections.foldl
      (fun a pc => (getReports pc.2).foldl processReport a) ⟨0, 0, 0, 0⟩) :=
    collect_good _ _ _ hrtt ⟨le_refl 0, fun _ => rfl, fun h => absurd h (by simp)⟩
  have hcnt : (s.peerConnections.foldl
      (fun a pc => (getReports pc.2).foldl processReport a)
      (⟨0, 0, 0, 0⟩ : StatsAcc)).connectionCount =
      totalMeasurements s.peerConnections getReports := by
    simpa using collect_count_total s.peerConnections ⟨0, 0, 0, 0⟩ getReports
  have hmeas : hasMeasurement s getReports = true ↔
      0 < (s.peerConnections.foldl
        (fun a pc => (getReports pc.2).foldl processReport a)
        (⟨0, 0, 0, 0⟩ : StatsAcc)).connectionCount := by
    rw [hcnt]
    exact anyMeasurement_iff _ _
  by_cases hm : hasMeasurement s getReports = true
  · have hcpos := hmeas.mp hm
    have htl := hgood.2.2 hcpos
    have hpos : 0 < (collectConnectionStats s getReports).latency := by
      simp only [collectConnectionStats, gt_iff_lt, if_pos hcpos]
      exact div_pos htl (by exact_mod_cast hcpos)
    have hcond : (s.socketConnected &&
        decide ((collectConnectionStats s getReports).latency > 0)) = true := by
      rw [hsock]
      simpa using hpos
    have hemits : statsTickEmit s getReports ≠ [] := by
      simp [statsTickEmit, hcond]
    exact ⟨⟨fun _ => hm, fun _ => hemits⟩, fun hf => absurd hm (by simp [hf])⟩
  · have hm' : hasMeasurement s getReports = false := by
      simpa using hm
    have hczero : ¬ 0 < (s.peerConnections.foldl
        (fun a pc => (getReports pc.2).foldl processReport a)
        (⟨0, 0, 0, 0⟩ : StatsAcc)).connectionCount :=
      fun hc => hm (hmeas.mpr hc)
    have hlat : (collectConnectionStats s getReports).latency = 0 := by
      simp only [collectConnectionStats, gt_iff_lt, if_neg hczero]
    have hcond : (s.socketConnected &&
        decide ((collectConnectionStats s getReports).latency > 0)) = false := by
      simp [hlat]
    have hemits : statsTickEmit s getReports = [] := by
      simp [statsTickEmit, hcond]
    exact ⟨by simp [hemits, hm'], fun _ => ⟨hlat, hemits⟩⟩

/-- Witness for C5 at a concrete state: one registered peer whose tick
produces no reports, hence no measurement, latency 0 and no emission. -/
theorem claim_C5_witness :
    (statsTickEmit c4State (fun _ => []) ≠ [] ↔
      hasMeasurement c4State (fun _ => []) = true) ∧
    (hasMeasurement c4State (fun _ => []) = false →
      (collectConnectionStats c4State (fun _ => [])).latency = 0 ∧
      statsTickEmit c4State (fun _ => []) = []) :=
  claim_C5 c4State (fun _ => []) (by simp [c4State]) (by simp)

/-! ## Claim C1 — per-peer apply guards -/

theorem guardRelease_processingOffers (s : ServiceState) (p : PeerId) :
    (guardRelease s p true).processingOffers = eraseElem p s.processingOffers := by
  simp only [guardRelease, if_true]
  split <;> rfl

theorem guardRelease_processingAnswers (s : ServiceState) (p : PeerId) :
    (guardRelease s p false).processingAnswers = eraseElem p s.processingAnswers := by
  simp only [guardRelease, Bool.false_eq_true, if_false]
  split <;> rfl

theorem guardRelease_timeouts (s : ServiceState) (p : PeerId) (b : Bool) :
    lookupKey p (guardRelease s p b).processingTimeouts = none := by
  cases b <;> simp only [guardRelease, Bool.false_eq_true, if_false, if_true] <;>
    (cases h : lookupKey p s.processingTimeouts with
     | some v => simp [h, lookupKey_eraseKey_self]
     | none => simp [h])

/-- Claim C1: once an offer (resp. answer) apply is marked in flight for a
peer, a further offer (resp. answer) for that peer is only buffered — the
state change is exactly the pending-buffer write and nothing is emitted; a
completed apply always releases the marker and its deadline timer; and the
guard-deadline firing releases the marker without completing the negotiation
(sessions, pending buffers and registry untouched, nothing emitted). The
in-flight marker being a per-peer set membership, at most one offer-apply and
one answer-apply can hold it per peer at any instant. -/
theorem claim_C1 (s : ServiceState) (p : PeerId)
    (offer answer : SessionDescription) (oracle : PlatformOracle) :
    (p ∈ s.processingOffers →
      handleOffer s p offer oracle =
        ({ s with pendingOffers := setKey p offer s.pendingOffers }, [])) ∧
    (p ∈ s.processingAnswers →
      handleAnswer s p answer oracle =
        ({ s with pendingAnswers := setKey p answer s.pendingAnswers }, [])) ∧
    (p ∉ s.processingOffers →
      p ∉ (handleOffer s p offer oracle).1.processingOffers ∧
      lookupKey p (handleOffer s p offer oracle).1.processingTimeouts = none) ∧
    (p ∉ s.processingAnswers →
      p ∉ (handleAnswer s p answer oracle).1.processingAnswers ∧
      lookupKey p (handleAnswer s p answer oracle).1.processingTimeouts = none) ∧
    (offerTimeoutFire s p).sessions = s.sessions ∧
    (offerTimeoutFire s p).pendingOffers = s.pendingOffers ∧
    (offerTimeoutFire s p).peerConnections = s.peerConnections ∧
    p ∉ (offerTimeoutFire s p).processingOffers ∧
    (answerTimeoutFire s p).sessions = s.sessions ∧
    (answerTimeoutFire s p).pendingAnswers = s.pendingAnswers ∧
    (answerTimeoutFire s p).peerConnections = s.peerConnections ∧
    p ∉ (answerTimeoutFire s p).processingAnswers := by
  refine ⟨?_, ?_, ?_, ?_, rfl, rfl, rfl, not_mem_eraseElem p _,
    rfl, rfl, rfl, not_mem_eraseElem p _⟩
  · intro h
    simp only [handleOffer, if_pos h]
  · intro h
    simp only [handleAnswer, if_pos h]
  · intro h
    simp only [handleOffer, if_neg h]
    exact ⟨by rw [guardRelease_processingOffers]; exact not_mem_eraseElem p _,
      guardRelease_timeouts _ p true⟩
  · intro h
    simp only [handleAnswer, if_neg h]
    exact ⟨by rw [guardRelease_processingAnswers]; exact not_mem_eraseElem p _,
      guardRelease_timeouts _ p false⟩

/-- State with an offer apply in flight for peer "B". -/
def c1State : ServiceState := { c4State with processingOffers := ["B"] }

/-- Witness for C1: with an offer apply in flight for "B", a second offer
from "B" is buffered verbatim; for "A" (no apply in flight) the guard is
free again after the handler completes. -/
theorem claim_C1_witness :
    handleOffer c1State "B" (mkOffer "B") successOracle =
      ({ c1State with pendingOffers := setKey "B" (mkOffer "B") c1State.pendingOffers },
       []) ∧
    "A" ∉ (handleOffer c1State "A" (mkOffer "A") successOracle).1.processingOffers :=
  ⟨(claim_C1 c1State "B" (mkOffer "B") (mkOffer "B") successOracle).1 (by decide),
   ((claim_C1 c1State "A" (mkOffer "A") (mkOffer "A") successOracle).2.2.1
    (by decide)).1⟩

/-! ## Claim C2 — pending ICE candidates -/

/-- Claim C2: an ICE candidate arriving for a peer with no session, or whose
session has no remote description yet, is appended to that peer's
pending-candidate buffer (arrival order preserved, nothing else changes,
nothing emitted); and once the remote description is set, the flush applies
exactly the buffered candidates, in their original order, and clears the
buffer. -/
theorem claim_C2 (s : ServiceState) (p : PeerId) (c : IceCandidate)
    (sid : SessionId) (ses : Session) :
    (getPC s p = none →
      handleIceCandidate s p c =
        ({ s with pendingCandidates := bufferCandidate s p c }, [])) ∧
    (getPC s p = some sid → getSession s sid = some ses →
      ses.remoteDescription = none →
      handleIceCandidate s p c =
        ({ s with pendingCandidates := bufferCandidate s p c }, [])) ∧
    (∀ cands, lookupKey p s.pendingCandidates = some cands → cands ≠ [] →
      getPC s p = some sid → getSession s sid = some ses →
      ses.remoteDescription.isSome = true →
      processPendingCandidates s p =
        ({ s with pendingCandidates := eraseKey p s.pendingCandidates },
         cands.map (Action.applyIceCandidate sid))) := by
  refine ⟨?_, ?_, ?_⟩
  · intro h
    simp only [handleIceCandidate, h]
  · intro h1 h2 h3
    simp only [handleIceCandidate, h1, h2, h3, Option.isSome_none,
      Bool.false_eq_true, if_false]
  · intro cands hc hne h1 h2 h3
    have hempty : cands.isEmpty = false := by
      simpa using hne
    simp only [processPendingCandidates, hc, hempty, Bool.false_eq_true,
      if_false, h1, h2, h3, if_true]

/-- State for the C2 witness: peer "B" has a session with a remote
description and two candidates were buffered before it was set. -/
def c2State : ServiceState :=
  { c4State with pendingCandidates := [("B", [⟨"cand1"⟩, ⟨"cand2"⟩])] }

/-- Witness for C2: at `c2State` the flush applies the two buffered
candidates in arrival order and clears the buffer; a candidate from the
unknown peer "A" is appended to a fresh buffer. -/
theorem claim_C2_witness :
    processPendingCandidates c2State "B" =
      ({ c2State with pendingCandidates := eraseKey "B" c2State.pendingCandidates },
       [Action.applyIceCandidate 0 ⟨"cand1"⟩, Action.applyIceCandidate 0 ⟨"cand2"⟩]) ∧
    handleIceCandidate c2State "A" ⟨"c"⟩ =
      ({ c2State with pendingCandidates := bufferCandidate c2State "A" ⟨"c"⟩ }, []) :=
  ⟨by
    have h := (claim_C2 c2State "B" ⟨"c"⟩ 0 c4Session).2.2
      [⟨"cand1"⟩, ⟨"cand2"⟩] (by decide) (by decide) (by decide) (by decide)
      (by decide)
    simpa using h,
   (claim_C2 c2State "A" ⟨"c"⟩ 0 c4Session).1 (by decide)⟩

/-! ## Claim C7 — duplicate answer for a Stable peer -/

/-- Claim C7: applying an answer for a peer whose session is already in the
Stable signaling state, with no answer-apply in flight for that peer (an
apply, as opposed to a guard-buffering) and no armed deadline timer, changes
no state at all (descriptions, buffers, guards, registry — the result is the
very same state) and emits no message: the duplicate is dropped, not
buffered. -/
theorem claim_C7 (s : ServiceState) (p : PeerId) (ans : SessionDescription)
    (oracle : PlatformOracle) (sid : SessionId) (ses : Session)
    (hpc : getPC s p = some sid) (hses : getSession s sid = some ses)
    (hstable : ses.signalingState = .stable)
    (hguard : p ∉ s.processingAnswers)
    (htimer : lookupKey p s.processingTimeouts = none) :
    handleAnswer s p ans oracle = (s, []) := by
  have hpc1 : getPC { s with
      processingAnswers := p :: s.processingAnswers,
      processingTimeouts := setKey p .answerGuard s.processingTimeouts } p =
      some sid := hpc
  have hses1 : getSession { s with
      processingAnswers := p :: s.processingAnswers,
      processingTimeouts := setKey p .answerGuard s.processingTimeouts } sid =
      some ses := hses
  have hbody : handleAnswerBody
      { s with processingAnswers := p :: s.processingAnswers,
               processingTimeouts := setKey p .answerGuard s.processingTimeouts }
      p ans oracle =
      ({ s with processingAnswers := p :: s.processingAnswers,
                processingTimeouts := setKey p .answerGuard s.processingTimeouts },
       [], none) := by
    cases hrd : ses.remoteDescription with
    | some d =>
      simp only [handleAnswerBody, hpc1, hses1, hrd, Option.isSome_some, if_true]
    | none =>
      simp only [handleAnswerBody, hpc1, hses1, hrd, Option.isSome_none,
        Bool.false_eq_true, if_false, hstable]
      simp
  have hrelease : guardRelease
      { s with processingAnswers := p :: s.processingAnswers,
               processingTimeouts := setKey p .answerGuard s.processingTimeouts }
      p false = s := by
    simp only [guardRelease, Bool.false_eq_true, if_false]
    rw [show eraseElem p (p :: s.processingAnswers) = s.processingAnswers by
      rw [eraseElem_cons_self, eraseElem_of_not_mem p _ hguard]]
    rw [show lookupKey p (setKey p TimerKind.answerGuard s.processingTimeouts) =
        some TimerKind.answerGuard from lookupKey_setKey_self p _ _]
    rw [eraseKey_setKey_self, eraseKey_of_lookup_none p _ htimer]
  simp only [handleAnswer, if_neg hguard, hbody, hrelease]

/-- State for the C7/C1 witnesses: the completed peer "B" of `c4State` with
no in-flight apply and no armed timer. -/
theorem claim_C7_witness :
    handleAnswer c4State "B" (mkAnswer "B") successOracle = (c4State, []) :=
  claim_C7 c4State "B" (mkAnswer "B") successOracle 0 c4Session
    (by decide) (by decide) (by decide) (by decide) (by decide)

/-! ## Claim C8 — recoverable vs unrecoverable apply errors -/

theorem guardRelease_pendingOffers (s : ServiceState) (p : PeerId) (b : Bool) :
    (guardRelease s p b).pendingOffers = s.pendingOffers := by
  cases b <;> simp only [guardRelease, Bool.false_eq_true, if_false, if_true] <;>
    split <;> rfl

theorem guardRelease_pendingAnswers (s : ServiceState) (p : PeerId) (b : Bool) :
    (guardRelease s p b).pendingAnswers = s.pendingAnswers := by
  cases b <;> simp only [guardRelease, Bool.false_eq_true, if_false, if_true] <;>
    split <;> rfl

theorem guardRelease_peerConnections (s : ServiceState) (p : PeerId) (b : Bool) :
    (guardRelease s p b).peerConnections = s.peerConnections := by
  cases b <;> simp only [guardRelease, Bool.false_eq_true, if_false, if_true] <;>
    split <;> rfl

theorem guardRelease_sessions (s : ServiceState) (p : PeerId) (b : Bool) :
    (guardRelease s p b).sessions = s.sessions := by
  cases b <;> simp only [guardRelease, Bool.false_eq_true, if_false, if_true] <;>
    split <;> rfl

/-- Claim C8: an exception thrown while applying an offer (peer in Stable, no
remote description, offer-apply free) or an answer (peer in HaveLocalOffer,
answer-apply free) is classified by its message: a wrong-state/ordering error
buffers the message for retry and the peer's session survives untouched in
the registry (and the handler returns normally, surfacing nothing); any other
exception closes the peer's session and removes its entry from the
registry. -/
theorem claim_C8 (s : ServiceState) (p : PeerId)
    (offer ans : SessionDescription) (oracle : PlatformOracle)
    (sid : SessionId) (ses : Session) (e : JsError)
    (hpc : getPC s p = some sid) (hses : getSession s sid = some ses)
    (hrd : ses.remoteDescription = none)
    (herr : oracle.setRemoteErr = some e) :
    (ses.signalingState = .stable → p ∉ s.processingOffers →
      (e.isWrongState = true →
        lookupKey p (handleOffer s p offer oracle).1.pendingOffers = some offer ∧
        getPC (handleOffer s p offer oracle).1 p = some sid ∧
        getSession (handleOffer s p offer oracle).1 sid = some ses) ∧
      (e.isWrongState = false →
        getPC (handleOffer s p offer oracle).1 p = none ∧
        getSession (handleOffer s p offer oracle).1 sid = some (Session.closeIt ses))) ∧
    (ses.signalingState = .haveLocalOffer → p ∉ s.processingAnswers →
      (e.isWrongState = true →
        lookupKey p (handleAnswer s p ans oracle).1.pendingAnswers = some ans ∧
        getPC (handleAnswer s p ans oracle).1 p = some sid ∧
        getSession (handleAnswer s p ans oracle).1 sid = some ses) ∧
      (e.isWrongState = false →
        getPC (handleAnswer s p ans oracle).1 p = none ∧
        getSession (handleAnswer s p ans oracle).1 sid = some (Session.closeIt ses))) := by
  constructor
  · intro hsig hguard
    have hpc1 : getPC { s with
        processingOffers := p :: s.processingOffers,
        processingTimeouts := setKey p .offerGuard s.processingTimeouts } p =
        some sid := hpc
    have hses1 : getSession { s with
        processingOffers := p :: s.processingOffers,
        processingTimeouts := setKey p .offerGuard s.processingTimeouts } sid =
        some ses := hses
    have hbody : handleOfferBody
        { s with
          processingOffers := p :: s.processingOffers,
          processingTimeouts := setKey p .offerGuard s.processingTimeouts }
        p offer oracle =
        ({ s with
           processingOffers := p :: s.processingOffers,
           processingTimeouts := setKey p .offerGuard s.processingTimeouts },
         [], some e) := by
      simp [handleOfferBody, hpc1, hses1, hsig, hrd, herr]
    constructor
    · intro hwr
      have hfin : handleOffer s p offer oracle =
          (guardRelease { s with
              pendingOffers := setKey p offer s.pendingOffers,
              processingOffers := p :: s.processingOffers,
              processingTimeouts := setKey p .offerGuard s.processingTimeouts }
            p true, []) := by
        simp [handleOffer, if_neg hguard, hbody, offerCatch, hwr]
      rw [hfin]
      refine ⟨?_, ?_, ?_⟩
      · rw [guardRelease_pendingOffers]
        exact lookupKey_setKey_self p offer s.pendingOffers
      · simp only [getPC, guardRelease_peerConnections]
        exact hpc
      · simp only [getSession, guardRelease_sessions]
        exact hses
    · intro hwr
      have hfin : handleOffer s p offer oracle =
          (guardRelease { s with
              sessions := closeInHeap sid s.sessions,
              peerConnections := eraseKey p s.peerConnections,
              processingOffers := p :: s.processingOffers,
              processingTimeouts := setKey p .offerGuard s.processingTimeouts }
            p true, [Action.closeSession sid]) := by
        simp [handleOffer, if_neg hguard, hbody, offerCatch, hwr, hpc1]
      rw [hfin]
      constructor
      · simp only [getPC, guardRelease_peerConnections]
        exact lookupKey_eraseKey_self p s.peerConnections
      · simp only [getSession, guardRelease_sessions, closeInHeap,
          lookupKey_updateSession]
        rw [show lookupKey sid s.sessions = some ses from hses]
        rfl
  · intro hsig hguard
    have hpc1 : getPC { s with
        processingAnswers := p :: s.processingAnswers,
        processingTimeouts := setKey p .answerGuard s.processingTimeouts } p =
        some sid := hpc
    have hses1 : getSession { s with
        processingAnswers := p :: s.processingAnswers,
        processingTimeouts := setKey p .answerGuard s.processingTimeouts } sid =
        some ses := hses
    have hbody : handleAnswerBody
        { s with
          processingAnswers := p :: s.processingAnswers,
          processingTimeouts := setKey p .answerGuard s.processingTimeouts }
        p ans oracle =
        ({ s with
           processingAnswers := p :: s.processingAnswers,
           processingTimeouts := setKey p .answerGuard s.processingTimeouts },
         [], some e) := by
      simp [handleAnswerBody, hpc1, hses1, hsig, hrd, herr]
    constructor
    · intro hwr
      have hfin : handleAnswer s p ans oracle =
          (guardRelease { s with
              pendingAnswers := setKey p ans s.pendingAnswers,
              processingAnswers := p :: s.processingAnswers,
              processingTimeouts := setKey p .answerGuard s.processingTimeouts }
            p false, []) := by
        simp [handleAnswer, if_neg hguard, hbody, answerCatch, hwr]
      rw [hfin]
      refine ⟨?_, ?_, ?_⟩
      · rw [guardRelease_pendingAnswers]
        exact lookupKey_setKey_self p ans s.pendingAnswers
      · simp only [getPC, guardRelease_peerConnections]
        exact hpc
      · simp only [getSession, guardRelease_sessions]
        exact hses
    · intro hwr
      have hfin : handleAnswer s p ans oracle =
          (guardRelease { s with
              sessions := closeInHeap sid s.sessions,
              peerConnections := eraseKey p s.peerConnections,
              processingAnswers := p :: s.processingAnswers,
              processingTimeouts := setKey p .answerGuard s.processingTimeouts }
            p false, [Action.closeSession sid]) := by
        simp [handleAnswer, if_neg hguard, hbody, answerCatch, hwr, hpc1]
      rw [hfin]
      constructor
      · simp only [getPC, guardRelease_peerConnections]
        exact lookupKey_eraseKey_self p s.peerConnections
      · simp only [getSession, guardRelease_sessions, closeInHeap,
          lookupKey_updateSession]
        rw [show lookupKey sid s.sessions = some ses from hses]
        rfl

/-- An answerer-side peer just before applying an offer. -/
def c8OfferSession : Session :=
  { peer := "B", signalingState := .stable, localDescription := none,
    remoteDescription := none, connectionState := .new }

/-- An offerer-side peer waiting for its answer. -/
def c8AnswerSession : Session :=
  { peer := "B", signalingState := .haveLocalOffer,
    localDescription := some (mkOffer "B"), remoteDescription := none,
    connectionState := .new }

/-- State whose peer "B" is in Stable with no remote description. -/
def c8StateO : ServiceState := { c4State with sessions := [(0, c8OfferSession)] }

/-- State whose peer "B" is in HaveLocalOffer with no remote description. -/
def c8StateA : ServiceState := { c4State with sessions := [(0, c8AnswerSession)] }

/-- Oracle whose `setRemoteDescription` throws a wrong-state error. -/
def wrongStateOracle : PlatformOracle :=
  { successOracle with setRemoteErr := some .wrongState }

/-- Oracle whose `setRemoteDescription` throws an unrelated error. -/
def hardFailOracle : PlatformOracle :=
  { successOracle with setRemoteErr := some (.other "fail") }

/-- Witness for C8: at concrete states, a wrong-state error while applying an
offer buffers it and keeps the session; a hard error while applying an answer
closes the session and removes the registry entry. -/
theorem claim_C8_witness :
    (lookupKey "B" (handleOffer c8StateO "B" (mkOffer "B")
        wrongStateOracle).1.pendingOffers = some (mkOffer "B") ∧
      getPC (handleOffer c8StateO "B" (mkOffer "B") wrongStateOracle).1 "B" = some 0 ∧
      getSession (handleOffer c8StateO "B" (mkOffer "B") wrongStateOracle).1 0 =
        some c8OfferSession) ∧
    (getPC (handleAnswer c8StateA "B" (mkAnswer "B") hardFailOracle).1 "B" = none ∧
      getSession (handleAnswer c8StateA "B" (mkAnswer "B") hardFailOracle).1 0 =
        some (Session.closeIt c8AnswerSession)) :=
  ⟨((claim_C8 c8StateO "B" (mkOffer "B") (mkAnswer "B") wrongStateOracle 0
      c8OfferSession .wrongState (by decide) (by decide) (by decide)
      (by decide)).1 (by decide) (by decide)).1 (by decide),
   ((claim_C8 c8StateA "B" (mkOffer "B") (mkAnswer "B") hardFailOracle 0
      c8AnswerSession (.other "fail") (by decide) (by decide) (by decide)
      (by decide)).2 (by decide) (by decide)).2 (by decide)⟩

/-! ## Claim C9 — teardown clears everything and is idempotent -/

/-- No per-peer state of `p` is left anywhere in the service: no registry
entry, no pending offer/answer/candidates, no guard of either kind, no
deadline timer, no remote stream. -/
def peerContextCleared (s : ServiceState) (p : PeerId) : Prop :=
  getPC s p = none ∧ lookupKey p s.pendingOffers = none ∧
  lookupKey p s.pendingAnswers = none ∧ lookupKey p s.pendingCandidates = none ∧
  p ∉ s.processingOffers ∧ p ∉ s.processingAnswers ∧
  lookupKey p s.processingTimeouts = none ∧ p ∉ s.remoteStreams

instance (s : ServiceState) (p : PeerId) : Decidable (peerContextCleared s p) := by
  unfold peerContextCleared
  infer_instance

theorem handleUserLeft_cleared (s : ServiceState) (p : PeerId) :
    peerContextCleared (handleUserLeft s p).1 p := by
  unfold handleUserLeft peerContextCleared
  cases hpc : getPC s p with
  | none =>
    simp only [hpc]
    split
    · exact ⟨hpc, lookupKey_eraseKey_self _ _, lookupKey_eraseKey_self _ _,
        lookupKey_eraseKey_self _ _, not_mem_eraseElem _ _, not_mem_eraseElem _ _,
        lookupKey_eraseKey_self _ _, not_mem_eraseElem _ _⟩
    · next hnone =>
        exact ⟨hpc, lookupKey_eraseKey_self _ _, lookupKey_eraseKey_self _ _,
          lookupKey_eraseKey_self _ _, not_mem_eraseElem _ _, not_mem_eraseElem _ _,
          hnone, not_mem_eraseElem _ _⟩
  | some sid =>
    simp only [hpc]
    split
    · exact ⟨lookupKey_eraseKey_self _ _, lookupKey_eraseKey_self _ _,
        lookupKey_eraseKey_self _ _, lookupKey_eraseKey_self _ _,
        not_mem_eraseElem _ _, not_mem_eraseElem _ _,
        lookupKey_eraseKey_self _ _, not_mem_eraseElem _ _⟩
    · next hnone =>
        exact ⟨lookupKey_eraseKey_self _ _, lookupKey_eraseKey_self _ _,
          lookupKey_eraseKey_self _ _, lookupKey_eraseKey_self _ _,
          not_mem_eraseElem _ _, not_mem_eraseElem _ _, hnone,
          not_mem_eraseElem _ _⟩

theorem handleUserLeft_noop (s : ServiceState) (p : PeerId)
    (h : peerContextCleared s p) : (handleUserLeft s p).1 = s := by
  obtain ⟨h1, h2, h3, h4, h5, h6, h7, h8⟩ := h
  unfold handleUserLeft
  simp only [h1, eraseElem_of_not_mem p _ h8, eraseKey_of_lookup_none p _ h2,
    eraseKey_of_lookup_none p _ h3, eraseKey_of_lookup_none p _ h4,
    eraseElem_of_not_mem p _ h6, eraseElem_of_not_mem p _ h5, h7]

theorem handleUserLeft_closes (s : ServiceState) (p : PeerId) (sid : SessionId)
    (hpc : getPC s p = some sid) :
    getSession (handleUserLeft s p).1 sid = (getSession s sid).map Session.closeIt := by
  unfold handleUserLeft
  simp only [hpc]
  split <;> simp [getSession, closeInHeap, lookupKey_updateSession]

/-- Claim C9: teardown of a peer clears all of its per-peer state (registry
entry, pending offer, pending answer, pending candidates, both guards,
deadline timer, remote stream) and closes its session when one is present; it
is idempotent — tearing down a peer with no context leaves the state exactly
as it was, and running teardown twice equals running it once; and a candidate
arriving afterwards starts a fresh single-element buffer rather than reusing
stale state. -/
theorem claim_C9 (s : ServiceState) (p : PeerId) (sid : SessionId)
    (c : IceCandidate) :
    peerContextCleared (handleUserLeft s p).1 p ∧
    (getPC s p = some sid →
      getSession (handleUserLeft s p).1 sid = (getSession s sid).map Session.closeIt) ∧
    (peerContextCleared s p → (handleUserLeft s p).1 = s) ∧
    (handleUserLeft (handleUserLeft s p).1 p).1 = (handleUserLeft s p).1 ∧
    lookupKey p (handleIceCandidate (handleUserLeft s p).1 p c).1.pendingCandidates
      = some [c] := by
  refine ⟨handleUserLeft_cleared s p, fun hpc => handleUserLeft_closes s p sid hpc,
    handleUserLeft_noop s p, handleUserLeft_noop _ _ (handleUserLeft_cleared s p), ?_⟩
  obtain ⟨h1, -, -, h4, -⟩ := handleUserLeft_cleared s p
  simp only [handleIceCandidate, h1, bufferCandidate, h4]
  simp [lookupKey_setKey_self]

/-- Witness for C9: tearing down the live peer "B" of `c4State` clears its
context and closes session 0; tearing down the absent peer "X" changes
nothing. -/
theorem claim_C9_witness :
    peerContextCleared (handleUserLeft c4State "B").1 "B" ∧
    getSession (handleUserLeft c4State "B").1 0 =
      (getSession c4State 0).map Session.closeIt ∧
    (handleUserLeft (handleUserLeft c4State "B").1 "B").1 =
      (handleUserLeft c4State "B").1 ∧
    (handleUserLeft c4State "X").1 = c4State :=
  ⟨(claim_C9 c4State "B" 0 ⟨"c"⟩).1,
   (claim_C9 c4State "B" 0 ⟨"c"⟩).2.1 (by decide),
   (claim_C9 c4State "B" 0 ⟨"c"⟩).2.2.2.1,
   (claim_C9 c4State "X" 0 ⟨"c"⟩).2.2.1 (by decide)⟩

/-! ## Claim C10 — "failed" connection state tears the peer down at once -/

/-- Claim C10: when a peer's session reports the "failed" connection state,
the connection-state-change handler itself tears the peer down on the spot —
after the event no live context for the peer remains (registry entry,
buffers, guards and timer all cleared) and the session is closed. -/
theorem claim_C10 (s : ServiceState) (p : PeerId) (sid : SessionId)
    (hpc : getPC s p = some sid) :
    peerContextCleared (onConnectionStateChange s p .failed).1 p ∧
    getSession (onConnectionStateChange s p .failed).1 sid =
      (getSession s sid).map
        (fun t => Session.closeIt { t with connectionState := .failed }) := by
  unfold onConnectionStateChange
  simp only [hpc, eq_self_iff_true, if_true]
  constructor
  · exact handleUserLeft_cleared _ p
  · have h := handleUserLeft_closes
      (ServiceState.mk
        (updateSession sid
          (fun t => { t with connectionState := ConnectionState.failed }) s.sessions)
        s.nextSessionId s.peerConnections s.remoteStreams s.pendingOffers
        s.pendingAnswers s.pendingCandidates s.processingOffers
        s.processingAnswers s.processingTimeouts s.socketConnected)
      p sid hpc
    rw [h]
    simp only [getSession, lookupKey_updateSession, Option.map_map]
    rfl

/-- Witness for C10 at `c4State`: the failure event for peer "B" clears its
context and closes session 0. -/
theorem claim_C10_witness :
    peerContextCleared (onConnectionStateChange c4State "B" .failed).1 "B" ∧
    getSession (onConnectionStateChange c4State "B" .failed).1 0 =
      (getSession c4State 0).map
        (fun t => Session.closeIt { t with connectionState := .failed }) :=
  claim_C10 c4State "B" 0 (by decide)

/-! ## Claim C3 — glare resolution

"At no point two live sessions" is formalised over the handler's action
trace: replaying any prefix of the emitted session-lifecycle events
(`closeSession`/`createSession`) on the initial heap never shows more than
one live session for the peer, and the final state has exactly one. -/

/-- Number of live (unclosed) sessions belonging to peer `p` in the heap. -/
def liveFor (p : PeerId) (heap : List (SessionId × Session)) : Nat :=
  heap.countP (fun e => e.2.peer = p && e.2.signalingState ≠ SignalingState.closed)

/-- Does an action change the session heap (create or close a session)? -/
def Action.touchesHeap : Action → Bool
  | .closeSession _ => true
  | .createSession _ _ => true
  | _ => false

/-- Effect of one traced action on the session heap. -/
def stepHeap (heap : List (SessionId × Session)) : Action → List (SessionId × Session)
  | .closeSession sid => closeInHeap sid heap
  | .createSession sid peer => heap ++ [(sid, freshSession peer)]
  | _ => heap

/-- Replay of a trace's session-lifecycle events on a heap. -/
def replayHeap (heap : List (SessionId × Session)) :
    List Action → List (SessionId × Session)
  | [] => heap
  | a :: rest => replayHeap (stepHeap heap a) rest

theorem replayHeap_neutral (heap : List (SessionId × Session)) (tr : List Action)
    (h : ∀ a ∈ tr, a.touchesHeap = false) : replayHeap heap tr = heap := by
  induction tr generalizing heap with
  | nil => rfl
  | cons a rest ih =>
    have ha : a.touchesHeap = false := h a (List.mem_cons_self _ _)
    have hstep : stepHeap heap a = heap := by
      cases a <;> simp_all [Action.touchesHeap, stepHeap]
    rw [replayHeap, hstep]
    exact ih _ (fun x hx => h x (List.mem_cons_of_mem _ hx))

theorem updateSession_cons_self (sid : SessionId) (f : Session → Session)
    (v : Session) (tl : List (SessionId × Session)) :
    updateSession sid f ((sid, v) :: tl) = (sid, f v) :: updateSession sid f tl := by
  simp [updateSession]

theorem updateSession_cons_ne (k sid : SessionId) (f : Session → Session)
    (v : Session) (tl : List (SessionId × Session)) (h : k ≠ sid) :
    updateSession sid f ((k, v) :: tl) = (k, v) :: updateSession sid f tl := by
  simp [updateSession, h]

theorem liveFor_cons (p : PeerId) (k : SessionId) (w : Session)
    (rest : List (SessionId × Session)) :
    liveFor p ((k, w) :: rest) = liveFor p rest +
      (if w.peer = p ∧ w.signalingState ≠ SignalingState.closed then 1 else 0) := by
  simp only [liveFor, List.countP_cons]
  split_ifs with h1 h2 <;> simp_all

theorem liveFor_cons_closed (p : PeerId) (k : SessionId) (w : Session)
    (rest : List (SessionId × Session)) :
    liveFor p ((k, Session.closeIt w) :: rest) = liveFor p rest := by
  rw [liveFor_cons, if_neg]
  · omega
  · simp [Session.closeIt]

theorem liveFor_append (p : PeerId) (l l' : List (SessionId × Session)) :
    liveFor p (l ++ l') = liveFor p l + liveFor p l' := by
  simp [liveFor, List.countP_append]

theorem liveFor_closeInHeap_le (p : PeerId) (sid : SessionId)
    (h : List (SessionId × Session)) :
    liveFor p (closeInHeap sid h) ≤ liveFor p h := by
  induction h with
  | nil => simp [liveFor, closeInHeap, updateSession]
  | cons hd tl ih =>
    obtain ⟨k, v⟩ := hd
    by_cases hk : k = sid
    · subst hk
      rw [closeInHeap, updateSession_cons_self, liveFor_cons_closed, liveFor_cons]
      rw [closeInHeap] at ih
      split_ifs <;> omega
    · rw [closeInHeap, updateSession_cons_ne k sid _ v tl hk, liveFor_cons,
        liveFor_cons]
      rw [closeInHeap] at ih
      split_ifs <;> omega

theorem liveFor_closeInHeap_zero (p : PeerId) (sid : SessionId)
    (h : List (SessionId × Session))
    (hall : ∀ e ∈ h, (e.2.peer = p ∧ e.2.signalingState ≠ SignalingState.closed) →
      e.1 = sid) :
    liveFor p (closeInHeap sid h) = 0 := by
  induction h with
  | nil => rfl
  | cons hd tl ih =>
    obtain ⟨k, v⟩ := hd
    have htl : liveFor p (closeInHeap sid tl) = 0 :=
      ih (fun e he hq => hall e (List.mem_cons_of_mem _ he) hq)
    by_cases hk : k = sid
    · subst hk
      rw [closeInHeap, updateSession_cons_self, liveFor_cons_closed]
      rw [closeInHeap] at htl
      exact htl
    · have hq : ¬ (v.peer = p ∧ v.signalingState ≠ SignalingState.closed) :=
        fun hq => hk (hall (k, v) (List.mem_cons_self _ _) hq)
      rw [closeInHeap, updateSession_cons_ne k sid _ v tl hk, liveFor_cons,
        if_neg hq]
      rw [closeInHeap] at htl
      omega

theorem eq_of_mem_of_length_le_one {α : Type} {l : List α} (hl : l.length ≤ 1)
    {a b : α} (ha : a ∈ l) (hb : b ∈ l) : a = b := by
  match l with
  | [] => cases ha
  | [x] =>
    simp only [List.mem_singleton] at ha hb
    rw [ha, hb]
  | x :: y :: rest => simp at hl

theorem lookupKey_some_mem {κ β : Type} [DecidableEq κ] (k : κ) (v : β)
    (l : List (κ × β)) (h : lookupKey k l = some v) : (k, v) ∈ l := by
  induction l with
  | nil => simp [lookupKey] at h
  | cons hd tl ih =>
    obtain ⟨k', v'⟩ := hd
    by_cases hk : k' = k
    · subst hk
      simp only [lookupKey, eq_self_iff_true, if_true, Option.some.injEq] at h
      subst h
      exact List.mem_cons_self _ _
    · simp only [lookupKey, if_neg hk] at h
      exact List.mem_cons_of_mem _ (ih h)

theorem liveFor_all_sid (p : PeerId) (sid : SessionId) (v : Session)
    (h : List (SessionId × Session)) (hmem : (sid, v) ∈ h)
    (hv : v.peer = p) (hvs : v.signalingState ≠ SignalingState.closed)
    (hle : liveFor p h ≤ 1) :
    ∀ e ∈ h, (e.2.peer = p ∧ e.2.signalingState ≠ SignalingState.closed) →
      e.1 = sid := by
  intro e he hq
  have hlen : (h.filter
      (fun e => e.2.peer = p && e.2.signalingState ≠ SignalingState.closed)).length ≤ 1 := by
    simpa [liveFor, List.countP_eq_length_filter] using hle
  have h1 : (sid, v) ∈ h.filter
      (fun e => e.2.peer = p && e.2.signalingState ≠ SignalingState.closed) := by
    simp only [List.mem_filter]
    exact ⟨hmem, by simp [hv, hvs]⟩
  have h2 : e ∈ h.filter
      (fun e => e.2.peer = p && e.2.signalingState ≠ SignalingState.closed) := by
    simp only [List.mem_filter]
    exact ⟨he, by simp [hq.1, hq.2]⟩
  have := eq_of_mem_of_length_le_one hlen h2 h1
  rw [this]

theorem lookupKey_append {κ β : Type} [DecidableEq κ] (k : κ)
    (l l' : List (κ × β)) :
    lookupKey k (l ++ l') =
      (match lookupKey k l with
       | some v => some v
       | none => lookupKey k l') := by
  induction l with
  | nil => simp [lookupKey]
  | cons hd tl ih =>
    obtain ⟨k', v'⟩ := hd
    by_cases hk : k' = k
    · simp [lookupKey, hk]
    · simp [lookupKey, hk, ih]

theorem lookupKey_eq_none_of_keys_lt (n : SessionId)
    (h : List (SessionId × Session)) (hlt : ∀ e ∈ h, e.1 < n) :
    lookupKey n h = none := by
  induction h with
  | nil => rfl
  | cons hd tl ih =>
    obtain ⟨k, v⟩ := hd
    have hk : k < n := hlt (k, v) (List.mem_cons_self _ _)
    simp only [lookupKey, if_neg (Nat.ne_of_lt hk)]
    exact ih (fun e he => hlt e (List.mem_cons_of_mem _ he))

theorem updateSession_keys_lt (sid : SessionId) (f : Session → Session)
    (n : SessionId) (h : List (SessionId × Session))
    (hlt : ∀ e ∈ h, e.1 < n) :
    ∀ e ∈ updateSession sid f h, e.1 < n := by
  induction h with
  | nil => intro e he; cases he
  | cons hd tl ih =>
    obtain ⟨k, v⟩ := hd
    have hk : k < n := hlt (k, v) (List.mem_cons_self _ _)
    have htl := ih (fun e he => hlt e (List.mem_cons_of_mem _ he))
    intro e he
    by_cases hks : k = sid
    · subst hks
      rw [updateSession_cons_self] at he
      rcases List.mem_cons.mp he with he | he
      · rw [he]; exact hk
      · exact htl e he
    · rw [updateSession_cons_ne k sid f v tl hks] at he
      rcases List.mem_cons.mp he with he | he
      · rw [he]; exact hk
      · exact htl e he

theorem updateSession_append (sid : SessionId) (f : Session → Session)
    (l l' : List (SessionId × Session)) :
    updateSession sid f (l ++ l') =
      updateSession sid f l ++ updateSession sid f l' := by
  induction l with
  | nil => simp [updateSession]
  | cons hd tl ih =>
    obtain ⟨k, v⟩ := hd
    by_cases hk : k = sid <;> simp [updateSession, hk, ih]

theorem updateSession_of_lookup_none (sid : SessionId) (f : Session → Session)
    (l : List (SessionId × Session)) (h : lookupKey sid l = none) :
    updateSession sid f l = l := by
  induction l with
  | nil => rfl
  | cons hd tl ih =>
    obtain ⟨k, v⟩ := hd
    by_cases hk : k = sid
    · simp [lookupKey, hk] at h
    · simp only [lookupKey, if_neg hk] at h
      simp [updateSession, hk, ih h]

/-- Candidate flushing only rewrites the pending-candidate buffer and emits
heap-neutral actions, whatever the state. -/
theorem processPendingCandidates_char (s : ServiceState) (p : PeerId) :
    ∃ (pC : List (PeerId × List IceCandidate)) (acts : List Action),
      processPendingCandidates s p = ({ s with pendingCandidates := pC }, acts) ∧
      (∀ a ∈ acts, a.touchesHeap = false) := by
  unfold processPendingCandidates
  cases h1 : lookupKey p s.pendingCandidates with
  | none => exact ⟨s.pendingCandidates, [], rfl, by simp⟩
  | some cands =>
    by_cases h2 : cands.isEmpty
    · refine ⟨s.pendingCandidates, [], ?_, by simp⟩
      simp [h2]
    · cases h3 : getPC s p with
      | none =>
        refine ⟨s.pendingCandidates, [], ?_, by simp⟩
        simp [h2, h3]
      | some sid =>
        cases h4 : getSession s sid with
        | none =>
          refine ⟨s.pendingCandidates, [], ?_, by simp⟩
          simp [h2, h3, h4]
        | some ses =>
          by_cases h5 : ses.remoteDescription.isSome
          · refine ⟨eraseKey p s.pendingCandidates,
              cands.map (Action.applyIceCandidate sid), ?_, ?_⟩
            · simp [h2, h3, h4, h5]
            · intro a ha
              rcases List.mem_map.mp ha with ⟨c, -, rfl⟩
              rfl
          · refine ⟨s.pendingCandidates, [], ?_, by simp⟩
            simp [h2, h3, h4, h5]

/-- `createPeerConnection(p, false)` called while an offer apply for `p` is
in flight (so the buffered-offer pickup is suppressed) and `p` has a
registered connection: it closes the old session, registers a fresh one with
the next id, possibly pops a buffered answer, and every extra action it emits
is heap-neutral. -/
theorem createPC_glare_char (s : ServiceState) (p : PeerId)
    (oracle : PlatformOracle) (oldSid : SessionId)
    (hpc : lookupKey p s.peerConnections = some oldSid)
    (hguard : p ∈ s.processingOffers) :
    ∃ (tail : List Action) (pA : List (PeerId × SessionDescription)),
      createPeerConnection s p false oracle =
        Except.ok
          ({ s with
             sessions := closeInHeap oldSid s.sessions ++
               [(s.nextSessionId, freshSession p)],
             nextSessionId := s.nextSessionId + 1,
             peerConnections := setKey p s.nextSessionId s.peerConnections,
             pendingAnswers := pA },
           s.nextSessionId,
           [Action.closeSession oldSid, Action.createSession s.nextSessionId p]
             ++ tail) ∧
      (∀ a ∈ tail, a.touchesHeap = false) := by
  unfold createPeerConnection
  cases hans : lookupKey p s.pendingAnswers with
  | none =>
    cases hoff : lookupKey p s.pendingOffers with
    | none => exact ⟨[], s.pendingAnswers, by simp [hpc, hans, hoff], by simp⟩
    | some off =>
      refine ⟨[], s.pendingAnswers, ?_, by simp⟩
      simp [hpc, hans, hoff, hguard]
  | some a =>
    by_cases hpa : p ∈ s.processingAnswers
    · cases hoff : lookupKey p s.pendingOffers with
      | none => exact ⟨[], s.pendingAnswers, by simp [hpc, hans, hoff, hpa], by simp⟩
      | some off =>
        refine ⟨[], s.pendingAnswers, ?_, by simp⟩
        simp [hpc, hans, hoff, hpa, hguard]
    · cases hoff : lookupKey p s.pendingOffers with
      | none =>
        refine ⟨[Action.scheduleHandleAnswer p a], eraseKey p s.pendingAnswers,
          ?_, by simp [Action.touchesHeap]⟩
        simp [hpc, hans, hoff, hpa]
      | some off =>
        refine ⟨[Action.scheduleHandleAnswer p a], eraseKey p s.pendingAnswers,
          ?_, by simp [Action.touchesHeap]⟩
        simp [hpc, hans, hoff, hpa, hguard]

/-- The session left behind by a successful glare resolution: answerer role,
remote offer applied, local answer committed, back in Stable. -/
def negotiatedSession (p : PeerId) (offer : SessionDescription) : Session :=
  { peer := p, signalingState := .stable, localDescription := some (mkAnswer p),
    remoteDescription := some offer, connectionState := .new }

/-- Symbolic execution of the `handleOffer` try-block under glare (session in
HaveLocalOffer) with every platform call succeeding: the old session is
closed (twice — once by the glare branch, once again by
`createPeerConnection`'s close-existing step), a single fresh session is
created and negotiated to Stable, and every further emitted action is
heap-neutral. -/
theorem handleOfferBody_glare_char (u : ServiceState) (p : PeerId)
    (offer : SessionDescription) (sid : SessionId) (ses : Session)
    (hpc : getPC u p = some sid) (hses : getSession u sid = some ses)
    (hglare : ses.signalingState = SignalingState.haveLocalOffer)
    (hguard : p ∈ u.processingOffers)
    (hfresh : ∀ e ∈ u.sessions, e.1 < u.nextSessionId) :
    ∃ (tail : List Action) (pA : List (PeerId × SessionDescription))
      (pC : List (PeerId × List IceCandidate)),
      handleOfferBody u p offer successOracle =
        ({ u with
           sessions := closeInHeap sid (closeInHeap sid u.sessions) ++
             [(u.nextSessionId, negotiatedSession p offer)],
           nextSessionId := u.nextSessionId + 1,
           peerConnections := setKey p u.nextSessionId u.peerConnections,
           pendingAnswers := pA,
           pendingCandidates := pC },
         [Action.closeSession sid, Action.closeSession sid,
          Action.createSession u.nextSessionId p] ++ tail, none) ∧
      (∀ a ∈ tail, a.touchesHeap = false) := by
  have hpcC : lookupKey p
      ({ u with sessions := closeInHeap sid u.sessions } : ServiceState).peerConnections =
      some sid := hpc
  have hguardC : p ∈
      ({ u with sessions := closeInHeap sid u.sessions } : ServiceState).processingOffers :=
    hguard
  obtain ⟨tail₁, pA, hcreate, hneutral₁⟩ := createPC_glare_char
    { u with sessions := closeInHeap sid u.sessions } p successOracle sid hpcC hguardC
  have hkeys : ∀ e ∈ closeInHeap sid (closeInHeap sid u.sessions),
      e.1 < u.nextSessionId := fun e he =>
    updateSession_keys_lt sid Session.closeIt u.nextSessionId _
      (fun e' he' => updateSession_keys_lt sid Session.closeIt u.nextSessionId _
        hfresh e' he') e he
  have hnone : lookupKey u.nextSessionId
      (closeInHeap sid (closeInHeap sid u.sessions)) = none :=
    lookupKey_eq_none_of_keys_lt _ _ hkeys
  have hget2 : lookupKey u.nextSessionId
      (closeInHeap sid (closeInHeap sid u.sessions) ++
        [(u.nextSessionId, freshSession p)]) = some (freshSession p) := by
    rw [lookupKey_append, hnone]
    simp [lookupKey]
  have hupd : ∀ (f : Session → Session) (w : Session),
      updateSession u.nextSessionId f
        (closeInHeap sid (closeInHeap sid u.sessions) ++ [(u.nextSessionId, w)]) =
      closeInHeap sid (closeInHeap sid u.sessions) ++ [(u.nextSessionId, f w)] := by
    intro f w
    rw [updateSession_append, updateSession_of_lookup_none _ _ _ hnone,
      updateSession_cons_self]
    rfl
  obtain ⟨pC, actsF, hflush, hneutralF⟩ := processPendingCandidates_char
    { u with
      sessions := closeInHeap sid (closeInHeap sid u.sessions) ++
        [(u.nextSessionId, negotiatedSession p offer)],
      nextSessionId := u.nextSessionId + 1,
      peerConnections := setKey p u.nextSessionId u.peerConnections,
      pendingAnswers := pA } p
  refine ⟨tail₁ ++
      (if u.socketConnected then [Action.emitAnswer p (mkAnswer p)] else []) ++
      actsF, pA, pC, ?_, ?_⟩
  · have hget2' : getSession
        { u with
          sessions := closeInHeap sid (closeInHeap sid u.sessions) ++
            [(u.nextSessionId, freshSession p)],
          nextSessionId := u.nextSessionId + 1,
          peerConnections := setKey p u.nextSessionId u.peerConnections,
          pendingAnswers := pA } u.nextSessionId = some (freshSession p) := hget2
    have hsr : successOracle.setRemoteErr = none := rfl
    have hca : successOracle.createAnswerErr = none := rfl
    have hsl : successOracle.setLocalAnswerErr = none := rfl
    have hfs1 : (freshSession p).signalingState = SignalingState.stable := rfl
    have hfs2 : (freshSession p).remoteDescription = none := rfl
    have hfs3 : (freshSession p).localDescription = none := rfl
    have hfs4 : (freshSession p).peer = p := rfl
    have hfs5 : (freshSession p).connectionState = ConnectionState.new := rfl
    have hng : (⟨p, SignalingState.stable, some (mkAnswer p), some offer,
        ConnectionState.new⟩ : Session) = negotiatedSession p offer := rfl
    simp only [handleOfferBody, hpc, hses, hglare, eq_self_iff_true, if_true,
      hcreate]
    simp [hget2', hsr, hca, hsl, hfs1, hfs2, hfs3, hupd, hfs4, hfs5, hng, hflush]
  · intro a ha
    rcases List.mem_append.mp ha with ha | ha
    · rcases List.mem_append.mp ha with ha | ha
      · exact hneutral₁ a ha
      · rcases hsc : u.socketConnected with _ | _ <;> rw [hsc] at ha <;>
          simp at ha
        rw [ha]
        rfl
    · exact hneutralF a ha

/-- The whole `handleOffer` run under glare with every platform call
succeeding: closes the old session (twice), registers exactly one fresh
negotiated session, releases the guard, and emits nothing else that touches
the session heap. -/
theorem handleOffer_glare_char (s : ServiceState) (p : PeerId)
    (offer : SessionDescription) (sid : SessionId) (ses : Session)
    (hpc : getPC s p = some sid) (hses : getSession s sid = some ses)
    (hglare : ses.signalingState = SignalingState.haveLocalOffer)
    (hguard : p ∉ s.processingOffers)
    (hfresh : ∀ e ∈ s.sessions, e.1 < s.nextSessionId) :
    ∃ (tail : List Action) (pA : List (PeerId × SessionDescription))
      (pC : List (PeerId × List IceCandidate)) (pT : List (PeerId × TimerKind)),
      handleOffer s p offer successOracle =
        ({ s with
           sessions := closeInHeap sid (closeInHeap sid s.sessions) ++
             [(s.nextSessionId, negotiatedSession p offer)],
           nextSessionId := s.nextSessionId + 1,
           peerConnections := setKey p s.nextSessionId s.peerConnections,
           pendingAnswers := pA,
           pendingCandidates := pC,
           processingOffers := eraseElem p s.processingOffers,
           processingTimeouts := pT },
         [Action.closeSession sid, Action.closeSession sid,
          Action.createSession s.nextSessionId p] ++ tail) ∧
      (∀ a ∈ tail, a.touchesHeap = false) := by
  obtain ⟨tail, pA, pC, hbody, hneutral⟩ := handleOfferBody_glare_char
    { s with
      processingOffers := p :: s.processingOffers,
      processingTimeouts := setKey p .offerGuard s.processingTimeouts }
    p offer sid ses hpc hses hglare (List.mem_cons_self p _) hfresh
  refine ⟨tail, pA, pC, eraseKey p s.processingTimeouts, ?_, hneutral⟩
  simp only [handleOffer, if_neg hguard, hbody]
  simp only [guardRelease, if_true, eraseElem_cons_self, lookupKey_setKey_self,
    eraseKey_setKey_self]

/-- Claim C3: an offer arriving while the peer's session is in HaveLocalOffer
(glare) resolves by closing that session and creating a fresh answerer-role
session: the new session is the peer's registered one, the old session ends
closed, exactly one live session for the peer survives, and replaying any
prefix of the handler's session-lifecycle events on the initial heap never
shows two live sessions for the peer at once. Hypotheses: the registered
session is the peer's only live one, no offer apply is in flight, and the
session-id allocator is ahead of every allocated id. -/
theorem claim_C3 (s : ServiceState) (p : PeerId) (offer : SessionDescription)
    (sid : SessionId) (ses : Session)
    (hpc : getPC s p = some sid) (hses : getSession s sid = some ses)
    (hglare : ses.signalingState = SignalingState.haveLocalOffer)
    (hpeer : ses.peer = p)
    (hguard : p ∉ s.processingOffers)
    (hlive : liveFor p s.sessions ≤ 1)
    (hfresh : ∀ e ∈ s.sessions, e.1 < s.nextSessionId) :
    getPC (handleOffer s p offer successOracle).1 p = some s.nextSessionId ∧
    liveFor p (handleOffer s p offer successOracle).1.sessions = 1 ∧
    getSession (handleOffer s p offer successOracle).1 sid =
      some (Session.closeIt ses) ∧
    (∀ n, liveFor p (replayHeap s.sessions
      ((handleOffer s p offer successOracle).2.take n)) ≤ 1) := by
  obtain ⟨tail, pA, pC, pT, heq, hneutral⟩ :=
    handleOffer_glare_char s p offer sid ses hpc hses hglare hguard hfresh
  have hall := liveFor_all_sid p sid ses s.sessions
    (lookupKey_some_mem sid ses s.sessions hses) hpeer
    (by rw [hglare]; simp) hlive
  have hzero1 : liveFor p (closeInHeap sid s.sessions) = 0 :=
    liveFor_closeInHeap_zero p sid s.sessions hall
  have hzero2 : liveFor p (closeInHeap sid (closeInHeap sid s.sessions)) = 0 :=
    Nat.le_zero.mp (hzero1 ▸ liveFor_closeInHeap_le p sid (closeInHeap sid s.sessions))
  rw [heq]
  refine ⟨?_, ?_, ?_, ?_⟩
  · simp only [getPC]
    exact lookupKey_setKey_self p s.nextSessionId s.peerConnections
  · simp only [liveFor_append, hzero2, liveFor_cons, negotiatedSession]
    simp [liveFor]
  · simp only [getSession]
    have hleft : lookupKey sid (closeInHeap sid (closeInHeap sid s.sessions)) =
        some (Session.closeIt (Session.closeIt ses)) := by
      unfold closeInHeap
      rw [lookupKey_updateSession, lookupKey_updateSession]
      rw [show lookupKey sid s.sessions = some ses from hses]
      rfl
    rw [lookupKey_append, hleft]
    rfl
  · intro n
    have hfreshlive : liveFor p (closeInHeap sid (closeInHeap sid s.sessions) ++
        [(s.nextSessionId, freshSession p)]) = 1 := by
      rw [liveFor_append, hzero2, liveFor_cons]
      simp [liveFor, freshSession]
    rcases n with _ | _ | _ | k
    · simpa [replayHeap] using hlive
    · simp only [List.cons_append, List.take_succ_cons, List.take_zero,
        replayHeap, stepHeap, hzero1]
      omega
    · simp only [List.cons_append, List.take_succ_cons, List.take_zero,
        replayHeap, stepHeap, hzero2]
      omega
    · simp only [List.cons_append, List.take_succ_cons, List.append_eq,
        List.nil_append, replayHeap, stepHeap]
      rw [replayHeap_neutral _ _
        (fun a ha => hneutral a (List.take_subset k tail ha))]
      rw [hfreshlive]

/-- Witness for C3 at `c8StateA`: peer "B" has session 0 in HaveLocalOffer;
an incoming offer leaves exactly one live session (the fresh session 1),
session 0 closed, and no trace prefix with two live sessions. -/
theorem claim_C3_witness :
    getPC (handleOffer c8StateA "B" (mkOffer "A") successOracle).1 "B" = some 1 ∧
    liveFor "B" (handleOffer c8StateA "B" (mkOffer "A") successOracle).1.sessions
      = 1 ∧
    getSession (handleOffer c8StateA "B" (mkOffer "A") successOracle).1 0 =
      some (Session.closeIt c8AnswerSession) ∧
    (∀ n, liveFor "B" (replayHeap c8StateA.sessions
      ((handleOffer c8StateA "B" (mkOffer "A") successOracle).2.take n)) ≤ 1) :=
  claim_C3 c8StateA "B" (mkOffer "A") 0 c8AnswerSession (by decide) (by decide)
    (by decide) (by decide) (by decide) (by decide) (by decide)

end RelayRTC
